import Mathlib

/-!
Verification of the serengpty data-pipeline core: the cross-account matching,
clustering, balance-scoring and path-discovery scheduler.

The Python sources embedded here (shallowly) are:
  * `assets/ai_conversations/utils/serendipity.py`
      (`generate_serendipity_prompt`, `parse_serendipity_result`)
  * `assets/ai_conversations/utils/balance_scores.py`
      (`sum_balance_scores`, `calculate_balance_scores`)
  * `assets/ai_conversations/utils/clustering.py`
      (`agglomerative_clustering`, size-constrained branch)
  * `assets/ai_conversations/utils/find_top_k_users.py`
      (`find_top_k_users`, including a faithful model of Python's `heapq`)
  * `assets/ai_conversations/serendipity_optimized.py`
      (`_generate_paths`, `_fix_duplicates`)

External collaborators (sklearn's AgglomerativeClustering, FAISS nearest
neighbour search, `math.log`, `StandardScaler`, `json_repair.repair_json`,
the LLM) are modelled as explicit function parameters; everything that is
logic of the repository itself is translated line by line.

Python floats are modelled as rationals (`ℚ`); the IEEE value `float("inf")`
produced and compared by `calculate_balance_scores` is modelled by the tagged
type `Score` below.  Python `dict`s are association lists in insertion order,
Python `set`s of row indices are `Finset ℤ`.
-/

namespace Serengpty

/-- A Python value as produced by `json_repair.repair_json(..., return_objects=True)`. -/
inductive PyVal : Type where
  | none : PyVal
  | bool : Bool → PyVal
  | int : Int → PyVal
  | str : String → PyVal
  | list : List PyVal → PyVal
  | dict : List (String × PyVal) → PyVal

/-- Python `d[k]` / `d.get(k)` on a dict modelled as an insertion-ordered
association list (a Python dict has unique keys; `find?` returns the entry). -/
def dictGet? (kvs : List (String × PyVal)) (k : String) : Option PyVal :=
  (kvs.find? (fun p => p.1 = k)).map (·.2)

/-- Python `d.get(k, default)`. -/
def dictGetD (kvs : List (String × PyVal)) (k : String) (d : PyVal) : PyVal :=
  (dictGet? kvs k).getD d

/-- `np.unique(x).tolist()` for an integer input: an int scalar is promoted to a
one-element array; a list must consist of integers (anything else raises inside
`np.unique` and is caught by the surrounding `except`, modelled as `none`). -/
def asIndexArray : PyVal → Option (List Int)
  | .int n => some [n]
  | .list xs => xs.mapM (fun v => match v with | .int n => some n | _ => Option.none)
  | _ => Option.none

/-- `np.unique` on a list of integers: the sorted list of distinct values. -/
def npUnique (l : List Int) : List Int :=
  List.insertionSort (· ≤ ·) l.dedup

/-- The validated result dict built by `parse_serendipity_result` on success
(`utils/serendipity.py` lines 138-149).  Field order mirrors the insertion
order of the returned Python dict. -/
structure ParsedPath : Type where
  path_title : PyVal
  common_indices : List Int
  user1_unique_indices : List Int
  user2_unique_indices : List Int
  common_background : PyVal
  user_1_unique_branches : PyVal
  user_2_unique_branches : PyVal
  user_1_call_to_action : PyVal
  user_2_call_to_action : PyVal
  is_highly_sensitive : PyVal

/-- The index-validation core of `parse_serendipity_result`
(`utils/serendipity.py` lines 117-128):
`common = np.unique(common_raw)`;
`user1 = set(np.unique(u1_raw)) - set(common)`;
`user2 = set(np.unique(u2_raw)) - set(user1) - set(common)`.
Python materialises the sets back into lists in unspecified order; the model
keeps the (sorted) `np.unique` order, which the claims never depend on. -/
def validateIndices (ciRaw u1Raw u2Raw : List Int) :
    List Int × List Int × List Int :=
  let common := npUnique ciRaw
  let user1 := (npUnique u1Raw).filter (fun x => decide (x ∉ common))
  let user2 := (npUnique u2Raw).filter
    (fun x => decide (x ∉ user1) && decide (x ∉ common))
  (common, user1, user2)

/-- `parse_serendipity_result` (`utils/serendipity.py` lines 107-151).
`repair` stands for the external `json_repair.repair_json`.  Every exception
path of the Python `try`/`except` (non-dict result, missing key, non-integer
index arrays) as well as the explicit empty-set rejection returns `{}`,
modelled as `Option.none`. -/
def parse_serendipity_result (repair : String → PyVal) (content : String) :
    Option ParsedPath :=
  match repair content with
  | .dict kvs =>
    match (dictGet? kvs "common_indices").bind asIndexArray with
    | Option.none => Option.none
    | some ciRaw =>
      match (dictGet? kvs "user1_unique_indices").bind asIndexArray with
      | Option.none => Option.none
      | some u1Raw =>
        match (dictGet? kvs "user2_unique_indices").bind asIndexArray with
        | Option.none => Option.none
        | some u2Raw =>
          if (validateIndices ciRaw u1Raw u2Raw).1 = [] ∨
              (validateIndices ciRaw u1Raw u2Raw).2.1 = [] ∨
              (validateIndices ciRaw u1Raw u2Raw).2.2 = [] then Option.none
          else
            match dictGet? kvs "common_background" with
            | Option.none => Option.none
            | some bg =>
              some
                { path_title :=
                    dictGetD kvs "path_title" (.str "Serendipitous Connection")
                  common_indices := (validateIndices ciRaw u1Raw u2Raw).1
                  user1_unique_indices := (validateIndices ciRaw u1Raw u2Raw).2.1
                  user2_unique_indices := (validateIndices ciRaw u1Raw u2Raw).2.2
                  common_background := bg
                  user_1_unique_branches :=
                    dictGetD kvs "user_1_unique_branches" (.str "")
                  user_2_unique_branches :=
                    dictGetD kvs "user_2_unique_branches" (.str "")
                  user_1_call_to_action :=
                    dictGetD kvs "user_1_call_to_action" (.str "")
                  user_2_call_to_action :=
                    dictGetD kvs "user_2_call_to_action" (.str "")
                  is_highly_sensitive :=
                    dictGetD kvs "is_highly_sensitive" (.bool false) }
  | _ => Option.none

/-- The keys, in insertion order, of the Python dict that
`parse_serendipity_result` returns: `[]` for the failure dict `{}`, and the
ten keys of lines 138-149 on success. -/
def pathDictKeys : Option ParsedPath → List String
  | Option.none => []
  | some _ =>
    ["path_title", "common_indices", "user1_unique_indices",
     "user2_unique_indices", "common_background", "user_1_unique_branches",
     "user_2_unique_branches", "user_1_call_to_action",
     "user_2_call_to_action", "is_highly_sensitive"]

/-- Python iterable unpacking `a, b = d` of a dict `d`: iterating a dict yields
its keys; unless there are exactly two of them, a `ValueError` is raised. -/
def unpackPair (keys : List String) : Except String (String × String) :=
  match keys with
  | [a, b] => Except.ok (a, b)
  | _ => Except.error "ValueError"

/-!
### Balance scores (`utils/balance_scores.py`)
-/

/-- A Python float that is either the literal `float("inf")` or a finite
value; `calculate_balance_scores` produces and downstream code compares
against exactly this infinity. -/
inductive Score : Type where
  | inf : Score
  | fin : ℚ → Score
deriving DecidableEq

/-- The three components dict returned by `calculate_balance_scores`. -/
structure ScoreDetail : Type where
  imbalance : Score
  magnitude_factor : Score
  dist : Score
deriving DecidableEq

/-- `any(v == float("inf") for v in score.values())`
(`serendipity_optimized.py` line 253). -/
def ScoreDetail.hasInf (d : ScoreDetail) : Bool :=
  d.imbalance = Score.inf ∨ d.magnitude_factor = Score.inf ∨ d.dist = Score.inf

/-- The numeric value of a finite `Score` (only applied to finite scores). -/
def Score.toQ : Score → ℚ
  | .inf => 0
  | .fin q => q

/-- One conversation summary dict as consumed by the scheduler: only
`row_idx` and `embedding` are read by the scoring and prompt logic.
`E` abstracts the embedding vector type. -/
structure Summary (E : Type) : Type where
  row_idx : Int
  embedding : E
deriving DecidableEq

/-- One cluster's entry of `cluster_data` (`serendipity_optimized.py`
`_prepare_clusters`): the current user's summaries, the other users'
summaries, and the category tag.  The `paths_found`/`iteration` counters are
only touched by code that is unreachable (see `parse_result_unpack_raises`)
and are omitted. -/
structure ClusterData (E : Type) : Type where
  current_summaries : List (Summary E)
  summaries : List (Summary E)
  category : String

/-- `sum_balance_scores` (`balance_scores.py` lines 17-25) with the constant
`WEIGHTS = {"imbalance": 1, "magnitude_factor": 1, "dist": 1}`. -/
def sum_balance_scores (imbalance magnitude_factor dist : ℚ) : ℚ :=
  1 * imbalance + 1 * magnitude_factor + 1 * dist

/-- One side's unconsumed embeddings: the list comprehension of
`balance_scores.py` lines 39-46. -/
def remainingEmb {E : Type} (l : List (Summary E)) (exclusions : Finset Int) :
    List E :=
  (l.filter (fun s => decide (s.row_idx ∉ exclusions))).map (·.embedding)

/-- `calculate_balance_scores` (`balance_scores.py` lines 28-75).

`imb` abstracts `abs(math.log(len_current / len_other))` as a function of the
two counts (the logarithm is irrational, hence kept opaque), and `matchSim`
abstracts the FAISS-based `get_approx_bipartite_match`.  The hardcoded
`magnitude_factor = 0` of line 63 is kept literally. -/
def calculate_balance_scores {E : Type}
    (imb : Nat → Nat → ℚ) (matchSim : List E → List E → ℚ)
    (data : ClusterData E) (exclusions : Finset Int) : Score × ScoreDetail :=
  let embeddings_current := remainingEmb data.current_summaries exclusions
  let embeddings_other := remainingEmb data.summaries exclusions
  let len_current := embeddings_current.length
  let len_other := embeddings_other.length
  if len_other = 0 ∨ len_current = 0 then
    (Score.inf, ⟨Score.inf, Score.inf, Score.inf⟩)
  else
    let imbalance := imb len_current len_other
    let magnitude_factor : ℚ := 0
    let dist := 1 - matchSim embeddings_current embeddings_other
    (Score.fin (imbalance + magnitude_factor + dist),
      ⟨Score.fin imbalance, Score.fin magnitude_factor, Score.fin dist⟩)

/-!
### Oracle prompts (`utils/serendipity.py`, `generate_serendipity_prompt`)
-/

/-- The content of a non-empty oracle prompt: the row indices of the
conversations included for each user, in summary order.  The surrounding
prose of the prompt string carries no further conversation data. -/
structure PromptData : Type where
  user1_rows : List Int
  user2_rows : List Int
deriving DecidableEq

/-- `generate_serendipity_prompt` (`utils/serendipity.py` lines 11-104):
filter out summaries whose `row_idx` is in the excluded set; if either
filtered side is empty return the empty prompt (`""`, modelled `none`),
otherwise the prompt lists exactly the filtered conversations. -/
def generate_serendipity_prompt {E : Type}
    (user1_summaries user2_summaries : List (Summary E))
    (excluded_indices : Finset Int) : Option PromptData :=
  let filtered_user1 :=
    user1_summaries.filter (fun s => decide (s.row_idx ∉ excluded_indices))
  let filtered_user2 :=
    user2_summaries.filter (fun s => decide (s.row_idx ∉ excluded_indices))
  if filtered_user1.isEmpty ∨ filtered_user2.isEmpty then Option.none
  else some ⟨filtered_user1.map (·.row_idx), filtered_user2.map (·.row_idx)⟩

/-!
### The path-discovery scheduler (`serendipity_optimized.py`, `_generate_paths`)
-/

/-- One oracle request as issued by the scheduler loop: the category being
processed, the cluster id picked, and the prompt content. -/
structure Request : Type where
  category : String
  cid : Int
  prompt : PromptData
deriving DecidableEq

/-- The mutable state threaded through `_generate_paths`: the single global
exclusion set, the per-category path counts (`paths_by_category` — its
entries are never appended to because the iteration raises first, see
`parse_result_unpack_raises`; only the counts drive the loop conditions),
and the log of oracle requests issued so far. -/
structure SchedState : Type where
  exclusions : Finset Int
  catPaths : List (String × Nat)
  requests : List Request
deriving DecidableEq

/-- `config.match_group_category_ratios.get(category, 0.0)`. -/
def ratioOf (ratios : List (String × ℚ)) (c : String) : ℚ :=
  ((ratios.find? (fun p => p.1 = c)).map (·.2)).getD 0

/-- `len(paths_by_category[category])`. -/
def getCount (counts : List (String × Nat)) (c : String) : Nat :=
  ((counts.find? (fun p => p.1 = c)).map (·.2)).getD 0

/-- `sum(len(paths) for paths in paths_by_category.values())`. -/
def totalPaths (counts : List (String × Nat)) : Nat :=
  (counts.map (·.2)).sum

/-- All the fixed inputs of `_generate_paths`; the external collaborators
(`math.log`-based imbalance, FAISS match similarity, the fitted
`StandardScaler` transform, the LLM, `json_repair`) are abstract functions. -/
structure SchedParams (E : Type) : Type where
  ratios : List (String × ℚ)
  max_paths : Nat
  imb : Nat → Nat → ℚ
  matchSim : List E → List E → ℚ
  fitScaler : List (ℚ × ℚ × ℚ) → (ℚ × ℚ × ℚ) → ℚ × ℚ × ℚ
  llm : PromptData → String
  repair : String → PyVal
  cluster_data : List (Int × ClusterData E)

/-- `cluster_data[cid]` (dict lookup; cids handed to the loop always exist). -/
def dataOf {E : Type} (cluster_data : List (Int × ClusterData E)) (cid : Int) :
    ClusterData E :=
  ((cluster_data.find? (fun p => p.1 = cid)).map (·.2)).getD ⟨[], [], ""⟩

/-- Append `cid` under key `c` of the insertion-ordered
`category_to_clusters` dict (`serendipity_optimized.py` lines 224-226). -/
def addToCat (m : List (String × List Int)) (c : String) (cid : Int) :
    List (String × List Int) :=
  if m.any (fun p => p.1 = c) then
    m.map (fun p => if p.1 = c then (p.1, p.2 ++ [cid]) else p)
  else m ++ [(c, [cid])]

/-- `category_to_clusters` (`serendipity_optimized.py` lines 220-226): group
cluster ids by category, keeping only categories with a strictly positive
configured ratio. -/
def categoryToClusters {E : Type} (ratios : List (String × ℚ))
    (cluster_data : List (Int × ClusterData E)) : List (String × List Int) :=
  cluster_data.foldl
    (fun m p => if 0 < ratioOf ratios p.2.category then
        addToCat m p.2.category p.1
      else m) []

/-- The per-cluster entries of `active_clusters`: cluster id, summed
standardized balance score, and the standardized component triple. -/
def ActiveEntry : Type := Int × ℚ × (ℚ × ℚ × ℚ)

/-- `active_clusters.sort(key=lambda x: x[1])`: ascending by summed score;
Python's sort is stable, as is `List.insertionSort`. -/
def byScoreLe (x y : ActiveEntry) : Prop := x.2.1 ≤ y.2.1

instance : DecidableRel byScoreLe :=
  fun x y => inferInstanceAs (Decidable (x.2.1 ≤ y.2.1))

/-- The dynamic per-category scheduling loop (`serendipity_optimized.py`
lines 288-385).  Each pass re-sorts the active clusters, picks the lowest
score, and builds a prompt from the cluster's summaries minus the exclusion
set.  An empty prompt pops the cluster and continues.  A non-empty prompt is
sent to the LLM; the next line,
`path_obj, indices_to_exclude = parse_serendipity_result(completion[-1])`,
unpacks the keys of the dict returned by `parse_serendipity_result`, which
has zero or ten keys (theorem `parse_result_key_count`), so it raises
`ValueError` and the whole `_generate_paths` coroutine aborts: the `Bool`
component `false` records that abort, and the lines below the unpack
(updating exclusions, emitting the path, re-scoring the cluster) are dead
code.

Every continuing pass of the loop pops exactly one cluster from the active
list, so `fuel := active.length` (as supplied by `runCategory`) bounds the
iteration count exactly; at `fuel = 0` the active list is empty on every
reachable call, where the loop's first guard returns `(st, true)` just the
same, keeping the recursion structural. -/
def catLoop {E : Type} (P : SchedParams E) (category : String) :
    Nat → List ActiveEntry → SchedState → SchedState × Bool
  | 0, _, st => (st, true)
  | fuel + 1, active, st =>
    if active.isEmpty then (st, true)
    else if ¬ totalPaths st.catPaths < P.max_paths then (st, true)
    else if ¬ ((getCount st.catPaths category : ℤ) <
        ⌈(P.max_paths : ℚ) * ratioOf P.ratios category⌉) then (st, true)
    else
      let sorted := List.insertionSort byScoreLe active
      let top := sorted.headD (0, 0, (0, 0, 0))
      let rest := sorted.tail
      let data := dataOf P.cluster_data top.1
      match generate_serendipity_prompt data.current_summaries data.summaries
          st.exclusions with
      | Option.none => catLoop P category fuel rest st
      | some prompt =>
        ({ st with requests := st.requests ++ [⟨category, top.1, prompt⟩] },
          false)

/-- `initial_scores` zipped with their cluster ids
(`serendipity_optimized.py` lines 245-248). -/
def scoredOf {E : Type} (P : SchedParams E) (cids : List Int)
    (st : SchedState) : List (Int × ScoreDetail) :=
  cids.map (fun cid =>
    (cid, (calculate_balance_scores P.imb P.matchSim
      (dataOf P.cluster_data cid) st.exclusions).2))

/-- `valid_entries`: drop clusters any of whose score components is
`float("inf")` (`serendipity_optimized.py` lines 251-254). -/
def validOf {E : Type} (P : SchedParams E) (cids : List Int)
    (st : SchedState) : List (Int × ScoreDetail) :=
  (scoredOf P cids st).filter (fun p => ¬ p.2.hasInf)

/-- The initial `active_clusters` (`serendipity_optimized.py` lines 263-286):
the valid clusters with their scaler-standardized components and summed
balance scores. -/
def initialActive {E : Type} (P : SchedParams E) (cids : List Int)
    (st : SchedState) : List ActiveEntry :=
  let valid := validOf P cids st
  let cols := valid.map (fun p =>
    (p.2.imbalance.toQ, p.2.magnitude_factor.toQ, p.2.dist.toQ))
  let standardized := cols.map (P.fitScaler cols)
  (valid.zip standardized).map
    (fun q => (q.1.1, sum_balance_scores q.2.1 q.2.2.1 q.2.2.2, q.2))

/-- Processing of one category (`serendipity_optimized.py` lines 239-286):
compute the initial balance scores against the current exclusion set, drop
clusters with an infinite component, standardize the remaining scores with
the freshly fitted scaler, and enter the dynamic loop. -/
def runCategory {E : Type} (P : SchedParams E) (category : String)
    (cids : List Int) (st : SchedState) : SchedState × Bool :=
  if cids.isEmpty then (st, true)
  else if (validOf P cids st).isEmpty then (st, true)
  else
    catLoop P category (initialActive P cids st).length
      (initialActive P cids st) st

/-- `category_to_clusters[category]` (the keys iterated always exist). -/
def lookupCids (m : List (String × List Int)) (c : String) : List Int :=
  ((m.find? (fun p => p.1 = c)).map (·.2)).getD []

/-- `sorted_categories` (`serendipity_optimized.py` lines 229-233): the
grouped categories sorted by configured ratio, descending; Python's sort is
stable, as is `List.insertionSort`. -/
def sortedCategories {E : Type} (P : SchedParams E) : List String :=
  List.insertionSort
    (fun c1 c2 => ratioOf P.ratios c2 ≤ ratioOf P.ratios c1)
    ((categoryToClusters P.ratios P.cluster_data).map (·.1))

/-- `_generate_paths` (`serendipity_optimized.py` lines 204-391): group the
clusters by positive-ratio category, process categories in descending ratio
order (stable sort), threading the shared state; a `ValueError` raised inside
a category aborts the whole coroutine (`Bool` result `false`). -/
def generate_paths {E : Type} (P : SchedParams E) : SchedState × Bool :=
  (sortedCategories P).foldl
    (fun acc c =>
      if acc.2 then
        runCategory P c
          (lookupCids (categoryToClusters P.ratios P.cluster_data) c) acc.1
      else acc)
    (⟨∅, [], []⟩, true)

/-!
### Duplicate fixing (`serendipity_optimized.py`, `_fix_duplicates`)
-/

/-- One row of the paths DataFrame, restricted to the columns
`_fix_duplicates` reads and writes. -/
structure PathRow : Type where
  match_group_id : Int
  common_indices : List Int
  user1_indices : List Int
  user2_indices : List Int
deriving DecidableEq

/-- The inner loop of `_fix_duplicates` over one list column: keep an index
only if it has not been seen before in this match group, threading the
`seen` set. -/
def fixList (seen : Finset Int) (l : List Int) : Finset Int × List Int :=
  l.foldl
    (fun acc x =>
      if x ∈ acc.1 then acc else (insert x acc.1, acc.2 ++ [x]))
    (seen, [])

/-- Process one row: the three list columns in the fixed order
`["common_indices", "user1_indices", "user2_indices"]`, threading `seen`. -/
def fixRow (seen : Finset Int) (row : PathRow) : Finset Int × PathRow :=
  ((fixList (fixList (fixList seen row.common_indices).1
      row.user1_indices).1 row.user2_indices).1,
   { row with
       common_indices := (fixList seen row.common_indices).2
       user1_indices :=
         (fixList (fixList seen row.common_indices).1 row.user1_indices).2
       user2_indices :=
         (fixList (fixList (fixList seen row.common_indices).1
           row.user1_indices).1 row.user2_indices).2 })

/-- Process the rows of one match group with a fresh `seen` set. -/
def fixGroup (rows : List PathRow) : List PathRow :=
  (rows.foldl
    (fun acc row => ((fixRow acc.1 row).1, acc.2 ++ [(fixRow acc.1 row).2]))
    ((∅ : Finset Int), [])).2

/-- The indices of one row in the order the duplicate-fixing pass visits
them: the `common_indices`, `user1_indices`, `user2_indices` columns. -/
def rowIndices (r : PathRow) : List Int :=
  r.common_indices ++ r.user1_indices ++ r.user2_indices

/-- All indices of a row list in visiting order. -/
def rowsIndices (rows : List PathRow) : List Int :=
  rows.flatMap rowIndices

/-- Keep only the first occurrence of every value (the flat specification the
duplicate-fixing pass is proved to implement across rows and columns). -/
def dedupKeepFirst (l : List Int) : List Int :=
  (fixList ∅ l).2

/-- First-occurrence order of the distinct `match_group_id` values
(`df["match_group_id"].unique().to_list()`). -/
def uniqueKeysFirst (l : List Int) : List Int :=
  (l.foldl (fun acc x => if x ∈ acc then acc else acc ++ [x]) [])

/-- `_fix_duplicates` (`serendipity_optimized.py` lines 394-433): group the
rows by `match_group_id` and drop, within each group, every index already
encountered across the three list columns in row order. -/
def fix_duplicates (df : List PathRow) : List PathRow :=
  (uniqueKeysFirst (df.map (·.match_group_id))).flatMap
    (fun mg => fixGroup (df.filter (fun r => decide (r.match_group_id = mg))))

/-!
### Size-constrained agglomerative clustering (`utils/clustering.py`)
-/

/-- The log lines emitted by the size-constrained clustering loop, tagged by
which `log(...)` call of `utils/clustering.py` produced them. -/
inductive ClusterLog : Type where
  | attempt (n_clusters n_items : Nat) : ClusterLog
  | success (largest : Nat) : ClusterLog
  | noImprovement : ClusterLog
  | exceedsMax (largest : Nat) : ClusterLog
  | reachedMax : ClusterLog
deriving DecidableEq

/-- `np.max(np.bincount(labels))`: the size of the largest cluster. -/
def largestClusterSize (labels : List Nat) : Nat :=
  ((labels.map (fun x => labels.count x)).foldr max 0)

/-- `ceil(n_items / max_items_per_cluster)` for positive divisor. -/
def ceilDiv (n c : Nat) : Nat := (n + c - 1) / c

/-- The body of `for iteration in range(max_cluster_iterations)`
(`utils/clustering.py` lines 60-111), entered with `r` further iterations
allowed after the current one.  `clusterer k` abstracts
`AgglomerativeClustering(n_clusters=k, ...).fit_predict(embeddings)`.
Returns the labels, the log, and the list of attempted cluster counts.
`prevSize = Option.none` models the initial `float("inf")`. -/
def aggLoop (clusterer : Nat → List Nat) (n_items max_per : Nat) :
    Nat → Nat → Option Nat → Option (List Nat) → List ClusterLog →
      List Nat → List Nat × List ClusterLog × List Nat
  | r, ncl, prevSize, prevLabels, log, att =>
    let log1 := log ++ [ClusterLog.attempt ncl n_items]
    let att1 := att ++ [ncl]
    let labels := clusterer ncl
    let largest := largestClusterSize labels
    if largest ≤ max_per then
      (labels, log1 ++ [ClusterLog.success largest], att1)
    else if (match prevSize with
             | some p => decide (p ≤ largest)
             | Option.none => false) then
      (prevLabels.getD labels, log1 ++ [ClusterLog.noImprovement], att1)
    else
      let log2 := log1 ++ [ClusterLog.exceedsMax largest]
      let ncl1 := ncl + 1
      if n_items ≤ ncl1 then
        (labels, log2 ++ [ClusterLog.reachedMax], att1)
      else
        match r with
        | 0 => (labels, log2, att1)
        | r1 + 1 =>
          aggLoop clusterer n_items max_per r1 ncl1 (some largest)
            (some labels) log2 att1

/-- The size-constrained branch of `agglomerative_clustering`
(`utils/clustering.py` lines 54-111), reached when `max_items_per_cluster`
is given and `distance_threshold` is not.  `Option.none` models the
`UnboundLocalError` Python would raise with a zero iteration budget (the
loop body never runs and `current_labels` is unbound). -/
def agglomerative_clustering (clusterer : Nat → List Nat)
    (n_items max_per max_iter : Nat) :
    Option (List Nat × List ClusterLog × List Nat) :=
  match max_iter with
  | 0 => Option.none
  | r + 1 =>
    some (aggLoop clusterer n_items max_per r
      (max 1 (ceilDiv n_items max_per)) Option.none Option.none [] [])

/-!
### Account matching (`utils/find_top_k_users.py`)

`find_top_k_users` keeps a min-heap of `(similarity, user_id)` tuples via
Python's `heapq`; the heap functions (`heappush`, `heappushpop` and their
helpers `_siftdown`, `_siftup`) are modelled operation for operation from
CPython's `Lib/heapq.py`, with Python's lexicographic tuple comparison. -/

/-- A heap entry `(similarity, user_id)`. -/
def HeapItem : Type := ℚ × String

/-- Python `<` on `str`, as lexicographic comparison of the code-point
sequences: a proper prefix is smaller, otherwise the first differing
character decides. -/
def strLtb : List Char → List Char → Bool
  | _, [] => false
  | [], _ :: _ => true
  | a :: as, b :: bs =>
    if a < b then true else if b < a then false else strLtb as bs

/-- Python `<` on `(float, str)` tuples: lexicographic. -/
def itemLtb (x y : HeapItem) : Bool :=
  decide (x.1 < y.1) || (decide (x.1 = y.1) && strLtb x.2.data y.2.data)

/-- Out-of-bounds reads never happen on the positions the heap code uses;
`getD` with this dummy keeps the functions total. -/
def dummyItem : HeapItem := (0, "")

/-- The loop of CPython's `_siftdown(heap, startpos, pos)`: move `newitem`
toward the root while it is smaller than its parent.  The position strictly
decreases on every continuing pass, so `fuel := pos` bounds the iteration
count exactly and the recursion is structural (when `fuel = 0`, `pos = 0 ≤
startpos` holds on every call reachable from `siftdown`, and the loop body
would exit immediately anyway). -/
def siftdownAux (newitem : HeapItem) (startpos : Nat) :
    Nat → List HeapItem → Nat → List HeapItem
  | 0, heap, pos => heap.set pos newitem
  | fuel + 1, heap, pos =>
    if startpos < pos then
      let parentpos := (pos - 1) / 2
      let parent := heap.getD parentpos dummyItem
      if itemLtb newitem parent then
        siftdownAux newitem startpos fuel (heap.set pos parent) parentpos
      else heap.set pos newitem
    else heap.set pos newitem

/-- `_siftdown(heap, startpos, pos)`. -/
def siftdown (heap : List HeapItem) (startpos pos : Nat) : List HeapItem :=
  siftdownAux (heap.getD pos dummyItem) startpos pos heap pos

/-- `heapq.heappush(heap, item)`: append, then sift down from the last slot. -/
def heappush (heap : List HeapItem) (item : HeapItem) : List HeapItem :=
  siftdown (heap ++ [item]) 0 heap.length

/-- The loop of CPython's `_siftup(heap, pos)`: bubble the hole at `pos` down
to a leaf, tracking the final hole position.  The hole index strictly
increases toward `endpos` on every continuing pass, so `fuel := endpos - pos`
bounds the iteration count exactly (when `fuel = 0`, `endpos ≤ pos`, hence
`2 * pos + 1 < endpos` fails and the loop would exit immediately anyway). -/
def siftupAux (endpos : Nat) : Nat → List HeapItem → Nat → List HeapItem × Nat
  | 0, heap, pos => (heap, pos)
  | fuel + 1, heap, pos =>
    let childpos := 2 * pos + 1
    if childpos < endpos then
      let rightpos := childpos + 1
      let childpos2 :=
        if rightpos < endpos ∧
            ¬ itemLtb (heap.getD childpos dummyItem)
                (heap.getD rightpos dummyItem) then rightpos
        else childpos
      let heap2 := heap.set pos (heap.getD childpos2 dummyItem)
      siftupAux endpos fuel heap2 childpos2
    else (heap, pos)

/-- `heapq._siftup(heap, pos)`: run the bubble-down loop starting from
`newitem = heap[pos]`, place `newitem` into the final hole, then restore the
invariant with `_siftdown(heap, startpos, pos)`. -/
def siftup (heap : List HeapItem) (pos : Nat) : List HeapItem :=
  let newitem := heap.getD pos dummyItem
  let r := siftupAux heap.length (heap.length - pos) heap pos
  siftdown (r.1.set r.2 newitem) pos r.2

/-- `heapq.heappushpop(heap, item)` (only the resulting heap; the popped
item is discarded by `find_top_k_users`). -/
def heappushpop (heap : List HeapItem) (item : HeapItem) : List HeapItem :=
  match heap with
  | [] => heap
  | h0 :: _ => if itemLtb h0 item then siftup (heap.set 0 item) 0 else heap

/-- `sorted(top_k_heap, key=lambda x: x[0], reverse=True)`: stable descending
order on the similarity component only (ties keep heap-list order). -/
def descByScore (x y : HeapItem) : Prop := y.1 ≤ x.1

instance : DecidableRel descByScore :=
  fun x y => inferInstanceAs (Decidable (y.1 ≤ x.1))

instance : IsTotal HeapItem descByScore := ⟨fun a b => le_total b.1 a.1⟩

instance : IsTrans HeapItem descByScore := ⟨fun _ _ _ h1 h2 => le_trans h2 h1⟩

/-- One pass of the `for user_id in other_user_ids` loop of
`find_top_k_users`: skip users without embeddings, `heappush` while the
heap is below `top_k`, otherwise `heappushpop` when the new similarity
beats the heap minimum `top_k_heap[0][0]` (whose read raises `IndexError`
on an empty heap, only reachable when `top_k = 0`). -/
def topStep (loadSim : String → Option ℚ) (top_k : Nat)
    (heap : List HeapItem) (uid : String) : Except String (List HeapItem) :=
  match loadSim uid with
  | Option.none => Except.ok heap
  | some similarity =>
    if heap.length < top_k then
      Except.ok (heappush heap (similarity, uid))
    else
      match heap with
      | [] => Except.error "IndexError"
      | h0 :: _ =>
        if h0.1 < similarity then
          Except.ok (heappushpop heap (similarity, uid))
        else Except.ok heap

/-- `find_top_k_users` (`find_top_k_users.py` lines 126-164).  `loadSim uid`
abstracts `load_user_embeddings(uid)` followed by
`get_approx_bipartite_match` (`Option.none` when the user has no
embeddings). -/
def find_top_k_users (loadSim : String → Option ℚ)
    (other_user_ids : List String) (top_k : Nat) :
    Except String (List (String × ℚ)) :=
  if other_user_ids.isEmpty then Except.ok []
  else do
    let heap ← other_user_ids.foldlM (topStep loadSim top_k) []
    Except.ok ((List.insertionSort descByScore heap).map (fun p => (p.2, p.1)))

/-- Equality of `find_top_k_users` results is decidable (componentwise). -/
instance : DecidableEq (Except String (List (String × ℚ))) := fun a b =>
  match a, b with
  | Except.ok x, Except.ok y =>
    if h : x = y then isTrue (by rw [h]) else
      isFalse (fun hc => h (by cases hc; rfl))
  | Except.error x, Except.error y =>
    if h : x = y then isTrue (by rw [h]) else
      isFalse (fun hc => h (by cases hc; rfl))
  | Except.ok _, Except.error _ => isFalse (fun hc => Except.noConfusion hc)
  | Except.error _, Except.ok _ => isFalse (fun hc => Except.noConfusion hc)

/-!
### Concrete fixtures used by witnesses and counterexamples
-/

/-- A `repair_json` stub whose result is not a dict. -/
def exRepair : String → PyVal := fun _ => PyVal.none

/-- A repaired oracle response with duplicated and overlapping index lists. -/
def exGoodVal : PyVal :=
  PyVal.dict
    [("common_indices", PyVal.list [PyVal.int 1, PyVal.int 1]),
     ("user1_unique_indices", PyVal.list [PyVal.int 1, PyVal.int 2]),
     ("user2_unique_indices", PyVal.list [PyVal.int 3]),
     ("common_background", PyVal.str "shared background")]

/-- A `repair_json` stub returning `exGoodVal`. -/
def exGoodRepair : String → PyVal := fun _ => exGoodVal

/-- A summary with a given row index (embeddings are irrelevant: `Unit`). -/
def exSummary (i : Int) : Summary Unit := ⟨i, ()⟩

/-- A category-"a" cluster with one conversation per side. -/
def exClusterA : ClusterData Unit := ⟨[exSummary 0], [exSummary 1], "a"⟩

/-- A category-"b" cluster with one conversation per side. -/
def exClusterB : ClusterData Unit := ⟨[exSummary 2], [exSummary 3], "b"⟩

/-- A cluster whose peer side has no conversations at all. -/
def exClusterEmpty : ClusterData Unit := ⟨[exSummary 0], [], "a"⟩

/-- A trivial imbalance function standing in for `abs(math.log(...))`. -/
def zeroImb : Nat → Nat → ℚ := fun _ _ => 0

/-- A trivial match-similarity function standing in for FAISS. -/
def zeroSim : List Unit → List Unit → ℚ := fun _ _ => 0

/-- Scheduler parameters with a single category-"a" cluster and an oracle
whose responses never parse. -/
def exParams : SchedParams Unit :=
  { ratios := [("a", 1)], max_paths := 20, imb := zeroImb, matchSim := zeroSim,
    fitScaler := fun _ t => t, llm := fun _ => "garbage", repair := exRepair,
    cluster_data := [(0, exClusterA)] }

/-- Scheduler parameters for the category-ratio scenario
`category_ratios = {"a": 1.0, "b": 0.0}` with one cluster per category. -/
def exParamsAB : SchedParams Unit :=
  { exParams with
      ratios := [("a", 1), ("b", 0)]
      cluster_data := [(0, exClusterA), (1, exClusterB)] }

/-- A deterministic stand-in for sklearn clustering: item `i` of ten items
goes to cluster `i % k`. -/
def exModClusterer : Nat → List Nat := fun k => (List.range 10).map (· % k)

/-- A degenerate clusterer that always lumps all ten items together. -/
def exOneClusterer : Nat → List Nat := fun _ => List.replicate 10 0

/-- All peers score 1/2: the tie-breaking scenario. -/
def exLoadSimTie : String → Option ℚ := fun _ => some (mkRat 1 2)

/-- Peer scores 0.9 / 0.4 / 0.7 for the spec's account-matcher example. -/
def exLoadSim097 : String → Option ℚ := fun uid =>
  if uid = "p1" then some (mkRat 9 10)
  else if uid = "p2" then some (mkRat 4 10)
  else if uid = "p3" then some (mkRat 7 10)
  else Option.none

/-- A paths DataFrame with duplicate indices inside match group 5. -/
def exPaths : List PathRow :=
  [⟨5, [1, 2], [3], [4]⟩, ⟨5, [2, 9], [1, 7], [3, 8]⟩, ⟨6, [1], [2], [3]⟩]

/-- The validated path that `parse_serendipity_result` produces from
`exGoodVal`. -/
def exParsedGood : ParsedPath :=
  { path_title := .str "Serendipitous Connection"
    common_indices := [1]
    user1_unique_indices := [2]
    user2_unique_indices := [3]
    common_background := .str "shared background"
    user_1_unique_branches := .str ""
    user_2_unique_branches := .str ""
    user_1_call_to_action := .str ""
    user_2_call_to_action := .str ""
    is_highly_sensitive := .bool false }

/-!
## Theorems

### Helper lemmas about `np.unique` and index validation
-/

theorem mem_npUnique {l : List Int} {x : Int} : x ∈ npUnique l ↔ x ∈ l := by
  simp [npUnique, List.mem_insertionSort]

theorem npUnique_nodup (l : List Int) : (npUnique l).Nodup := by
  simpa [npUnique] using
    ((List.perm_insertionSort (· ≤ ·) l.dedup).nodup_iff).mpr l.nodup_dedup

theorem validate_common_mem {ci u1 u2 : List Int} {x : Int} :
    x ∈ (validateIndices ci u1 u2).1 ↔ x ∈ ci := by
  simp [validateIndices, mem_npUnique]

theorem validate_user1_mem {ci u1 u2 : List Int} {x : Int} :
    x ∈ (validateIndices ci u1 u2).2.1 ↔ x ∈ u1 ∧ x ∉ npUnique ci := by
  simp [validateIndices, List.mem_filter, mem_npUnique]

theorem validate_user2_mem {ci u1 u2 : List Int} {x : Int} :
    x ∈ (validateIndices ci u1 u2).2.2 ↔
      x ∈ u2 ∧ x ∉ (validateIndices ci u1 u2).2.1 ∧ x ∉ npUnique ci := by
  simp [validateIndices, List.mem_filter, mem_npUnique]
  tauto

theorem validate_nodup (ci u1 u2 : List Int) :
    (validateIndices ci u1 u2).1.Nodup ∧ (validateIndices ci u1 u2).2.1.Nodup ∧
      (validateIndices ci u1 u2).2.2.Nodup :=
  ⟨npUnique_nodup ci, (npUnique_nodup u1).filter _, (npUnique_nodup u2).filter _⟩

/-- Shape of every successful parse: the three index lists come from
`validateIndices` on the raw response arrays and none of them is empty. -/
theorem parse_some_spec {repair : String → PyVal} {content : String}
    {p : ParsedPath} (h : parse_serendipity_result repair content = some p) :
    ∃ ciRaw u1Raw u2Raw,
      p.common_indices = (validateIndices ciRaw u1Raw u2Raw).1 ∧
      p.user1_unique_indices = (validateIndices ciRaw u1Raw u2Raw).2.1 ∧
      p.user2_unique_indices = (validateIndices ciRaw u1Raw u2Raw).2.2 ∧
      p.common_indices ≠ [] ∧ p.user1_unique_indices ≠ [] ∧
      p.user2_unique_indices ≠ [] := by
  unfold parse_serendipity_result at h
  split at h <;> try exact Option.noConfusion h
  split at h <;> try exact Option.noConfusion h
  split at h <;> try exact Option.noConfusion h
  split at h <;> try exact Option.noConfusion h
  split at h <;> try exact Option.noConfusion h
  split at h <;> try exact Option.noConfusion h
  cases h
  refine ⟨_, _, _, rfl, rfl, rfl, ?_, ?_, ?_⟩ <;> simp_all

/-!
### C4 — validation of the oracle response
-/

/-- **C4**: for every input, `parse_serendipity_result` returns either the
empty dict or a result whose three index lists are duplicate-free, pairwise
disjoint and all non-empty (an empty set rejects the whole response); and an
index claimed by both the common and a unique raw list survives validation
only in the common list. -/
theorem c4_parse_partition :
    (∀ (repair : String → PyVal) (content : String) (p : ParsedPath),
      parse_serendipity_result repair content = some p →
        p.common_indices.Nodup ∧ p.user1_unique_indices.Nodup ∧
          p.user2_unique_indices.Nodup ∧
          (∀ x ∈ p.user1_unique_indices, x ∉ p.common_indices) ∧
          (∀ x ∈ p.user2_unique_indices,
            x ∉ p.common_indices ∧ x ∉ p.user1_unique_indices) ∧
          p.common_indices ≠ [] ∧ p.user1_unique_indices ≠ [] ∧
          p.user2_unique_indices ≠ []) ∧
    (∀ (ciRaw u1Raw u2Raw : List Int) (x : Int), x ∈ ciRaw →
      x ∈ (validateIndices ciRaw u1Raw u2Raw).1 ∧
        x ∉ (validateIndices ciRaw u1Raw u2Raw).2.1 ∧
        x ∉ (validateIndices ciRaw u1Raw u2Raw).2.2) := by
  constructor
  · intro repair content p h
    obtain ⟨ci, u1, u2, hc, h1, h2, hcne, h1ne, h2ne⟩ := parse_some_spec h
    refine ⟨?_, ?_, ?_, ?_, ?_, hcne, h1ne, h2ne⟩
    · rw [hc]
      exact (validate_nodup ci u1 u2).1
    · rw [h1]
      exact (validate_nodup ci u1 u2).2.1
    · rw [h2]
      exact (validate_nodup ci u1 u2).2.2
    · intro x hx
      rw [h1] at hx
      rw [hc]
      exact (validate_user1_mem.mp hx).2
    · intro x hx
      rw [h2] at hx
      rw [hc, h1]
      obtain ⟨-, hn1, hnc⟩ := validate_user2_mem.mp hx
      exact ⟨hnc, hn1⟩
  · intro ci u1 u2 x hx
    refine ⟨validate_common_mem.mpr hx, ?_, ?_⟩
    · intro hmem
      exact (validate_user1_mem.mp hmem).2 (mem_npUnique.mpr hx)
    · intro hmem
      exact (validate_user2_mem.mp hmem).2.2 (mem_npUnique.mpr hx)

/-- Witness for C4: the duplicated, overlapping response `exGoodVal` parses
to `[1] / [2] / [3]`, and the index 1 (claimed both common and unique) is
kept only in the common list. -/
theorem c4_parse_partition_witness :
    parse_serendipity_result exGoodRepair "resp" = some exParsedGood ∧
    (exParsedGood.common_indices.Nodup ∧
      exParsedGood.user1_unique_indices.Nodup ∧
      exParsedGood.user2_unique_indices.Nodup ∧
      (∀ x ∈ exParsedGood.user1_unique_indices,
        x ∉ exParsedGood.common_indices) ∧
      (∀ x ∈ exParsedGood.user2_unique_indices,
        x ∉ exParsedGood.common_indices ∧
          x ∉ exParsedGood.user1_unique_indices) ∧
      exParsedGood.common_indices ≠ [] ∧
      exParsedGood.user1_unique_indices ≠ [] ∧
      exParsedGood.user2_unique_indices ≠ []) ∧
    ((1 : Int) ∈ ([1, 1] : List Int) ∧
      ((1 : Int) ∈ (validateIndices [1, 1] [1, 2] [3] : _).1 ∧
        (1 : Int) ∉ (validateIndices [1, 1] [1, 2] [3] : _).2.1 ∧
        (1 : Int) ∉ (validateIndices [1, 1] [1, 2] [3] : _).2.2)) :=
  ⟨rfl,
    c4_parse_partition.1 exGoodRepair "resp" exParsedGood rfl,
    by decide,
    c4_parse_partition.2 [1, 1] [1, 2] [3] 1 (by decide)⟩

/-!
### Generic step lemmas for the scheduling loop
-/

/-- When the loop guards pass and the top cluster's prompt is non-empty, the
iteration issues exactly one oracle request and then aborts with the
`ValueError` of the tuple unpack. -/
theorem catLoop_issue {E : Type} (P : SchedParams E) (c : String) (fuel : Nat)
    (active : List ActiveEntry) (st : SchedState) (pr : PromptData)
    (hne : active.isEmpty = false)
    (h1 : totalPaths st.catPaths < P.max_paths)
    (h2 : (getCount st.catPaths c : ℤ) <
      ⌈(P.max_paths : ℚ) * ratioOf P.ratios c⌉)
    (hpr : generate_serendipity_prompt
      (dataOf P.cluster_data
        ((List.insertionSort byScoreLe active).headD
          (0, 0, (0, 0, 0))).1).current_summaries
      (dataOf P.cluster_data
        ((List.insertionSort byScoreLe active).headD
          (0, 0, (0, 0, 0))).1).summaries
      st.exclusions = some pr) :
    catLoop P c (fuel + 1) active st =
      ({ st with requests := st.requests ++
          [⟨c, ((List.insertionSort byScoreLe active).headD
            (0, 0, (0, 0, 0))).1, pr⟩] }, false) := by
  simp only [catLoop, hne, h1, h2, hpr, Bool.false_eq_true, if_false,
    not_true, if_neg, not_lt]

/-- A cluster whose prompt comes back empty is popped and the loop goes on. -/
theorem catLoop_pop {E : Type} (P : SchedParams E) (c : String) (fuel : Nat)
    (active : List ActiveEntry) (st : SchedState)
    (hne : active.isEmpty = false)
    (h1 : totalPaths st.catPaths < P.max_paths)
    (h2 : (getCount st.catPaths c : ℤ) <
      ⌈(P.max_paths : ℚ) * ratioOf P.ratios c⌉)
    (hpr : generate_serendipity_prompt
      (dataOf P.cluster_data
        ((List.insertionSort byScoreLe active).headD
          (0, 0, (0, 0, 0))).1).current_summaries
      (dataOf P.cluster_data
        ((List.insertionSort byScoreLe active).headD
          (0, 0, (0, 0, 0))).1).summaries
      st.exclusions = Option.none) :
    catLoop P c (fuel + 1) active st =
      catLoop P c fuel (List.insertionSort byScoreLe active).tail st := by
  simp only [catLoop, hne, h1, h2, hpr, Bool.false_eq_true, if_false,
    not_true, if_neg, not_lt]

/-!
### C3 — what actually happens to an oracle completion
-/

/-- The dict `parse_serendipity_result` returns has zero keys (failure) or
ten keys (success) — never the two that
`path_obj, indices_to_exclude = parse_serendipity_result(...)` expects. -/
theorem parse_result_key_count (repair : String → PyVal) (content : String) :
    pathDictKeys (parse_serendipity_result repair content) = [] ∨
      (pathDictKeys (parse_serendipity_result repair content)).length = 10 := by
  cases parse_serendipity_result repair content
  · exact Or.inl rfl
  · exact Or.inr rfl

/-- **C3** (code bug): the tuple unpack at `serendipity_optimized.py` line
329 raises `ValueError` on every oracle completion — parse failures are NOT
handled as "no path found this iteration"; instead the whole match group's
scheduling loop aborts after its first oracle request, emitting no path. -/
theorem c3_parse_failure_aborts_run :
    (∀ (repair : String → PyVal) (content : String),
      unpackPair (pathDictKeys (parse_serendipity_result repair content)) =
        Except.error "ValueError") ∧
    parse_serendipity_result exParams.repair (exParams.llm ⟨[0], [1]⟩) =
      Option.none ∧
    generate_paths exParams =
      ({ exclusions := ∅, catPaths := [],
         requests := [⟨"a", 0, ⟨[0], [1]⟩⟩] }, false) := by
  refine ⟨fun repair content => ?_, rfl, ?_⟩
  · cases parse_serendipity_result repair content <;> rfl
  · have h0 : generate_paths exParams =
        catLoop exParams "a" 1
          (initialActive exParams [0] ⟨∅, [], []⟩) ⟨∅, [], []⟩ := rfl
    rw [h0, catLoop_issue exParams "a" 0
      (initialActive exParams [0] ⟨∅, [], []⟩) ⟨∅, [], []⟩ ⟨[0], [1]⟩ rfl
      (by decide) (by norm_num [getCount, ratioOf, exParams]) rfl]
    rfl

/-!
### C10 and C2 — the balance score's two branches
-/

/-- The non-empty branch of `calculate_balance_scores` as one equation. -/
theorem calculate_balance_scores_pos {E : Type}
    (imb : Nat → Nat → ℚ) (matchSim : List E → List E → ℚ)
    (data : ClusterData E) (exclusions : Finset Int)
    (hc : remainingEmb data.current_summaries exclusions ≠ [])
    (ho : remainingEmb data.summaries exclusions ≠ []) :
    calculate_balance_scores imb matchSim data exclusions =
      (Score.fin
        (imb (remainingEmb data.current_summaries exclusions).length
            (remainingEmb data.summaries exclusions).length
          + 0 +
          (1 - matchSim (remainingEmb data.current_summaries exclusions)
            (remainingEmb data.summaries exclusions))),
       ⟨Score.fin
          (imb (remainingEmb data.current_summaries exclusions).length
            (remainingEmb data.summaries exclusions).length),
        Score.fin 0,
        Score.fin
          (1 - matchSim (remainingEmb data.current_summaries exclusions)
            (remainingEmb data.summaries exclusions))⟩) := by
  have hcond : ¬ ((remainingEmb data.summaries exclusions).length = 0 ∨
      (remainingEmb data.current_summaries exclusions).length = 0) := by
    rintro (h | h)
    · exact ho (List.length_eq_zero.mp h)
    · exact hc (List.length_eq_zero.mp h)
  simp only [calculate_balance_scores]
  rw [if_neg hcond]

/-- The empty branch of `calculate_balance_scores` as one equation. -/
theorem calculate_balance_scores_empty {E : Type}
    (imb : Nat → Nat → ℚ) (matchSim : List E → List E → ℚ)
    (data : ClusterData E) (exclusions : Finset Int)
    (h : remainingEmb data.summaries exclusions = [] ∨
      remainingEmb data.current_summaries exclusions = []) :
    calculate_balance_scores imb matchSim data exclusions =
      (Score.inf, ⟨Score.inf, Score.inf, Score.inf⟩) := by
  have hcond : (remainingEmb data.summaries exclusions).length = 0 ∨
      (remainingEmb data.current_summaries exclusions).length = 0 := by
    rcases h with h | h
    · exact Or.inl (List.length_eq_zero.mpr h)
    · exact Or.inr (List.length_eq_zero.mpr h)
  simp only [calculate_balance_scores]
  rw [if_pos hcond]

/-- **C10**: whenever both sides keep at least one unconsumed conversation,
the `magnitude_factor` component returned by `calculate_balance_scores` is
the hardcoded `0` (the inverse-total-size formula of `balance_scores.py`
line 62 is commented out, with no configuration to re-enable it), so the
unstandardized total equals `imbalance + dist` exactly. -/
theorem c10_magnitude_factor_hardcoded_zero {E : Type}
    (imb : Nat → Nat → ℚ) (matchSim : List E → List E → ℚ)
    (data : ClusterData E) (exclusions : Finset Int)
    (hc : remainingEmb data.current_summaries exclusions ≠ [])
    (ho : remainingEmb data.summaries exclusions ≠ []) :
    (calculate_balance_scores imb matchSim data exclusions).2.magnitude_factor
        = Score.fin 0 ∧
      ∀ i d : ℚ,
        (calculate_balance_scores imb matchSim data exclusions).2.imbalance =
            Score.fin i →
          (calculate_balance_scores imb matchSim data exclusions).2.dist =
              Score.fin d →
            (calculate_balance_scores imb matchSim data exclusions).1 =
              Score.fin (i + d) := by
  rw [calculate_balance_scores_pos imb matchSim data exclusions hc ho]
  refine ⟨rfl, fun i d hi hd => ?_⟩
  simp only [Score.fin.injEq] at hi hd ⊢
  rw [← hi, ← hd]
  ring

/-- Witness for C10 at a concrete cluster. -/
theorem c10_witness :
    remainingEmb exClusterA.current_summaries ∅ ≠ [] ∧
      remainingEmb exClusterA.summaries ∅ ≠ [] ∧
      ((calculate_balance_scores zeroImb zeroSim exClusterA
            ∅).2.magnitude_factor = Score.fin 0 ∧
        ∀ i d : ℚ,
          (calculate_balance_scores zeroImb zeroSim exClusterA
              ∅).2.imbalance = Score.fin i →
            (calculate_balance_scores zeroImb zeroSim exClusterA
                ∅).2.dist = Score.fin d →
              (calculate_balance_scores zeroImb zeroSim exClusterA ∅).1 =
                Score.fin (i + d)) :=
  ⟨by decide, by decide,
    c10_magnitude_factor_hardcoded_zero zeroImb zeroSim exClusterA ∅
      (by decide) (by decide)⟩

/-- Counterexample to C2 as stated: on a cluster whose peer side has no
unconsumed conversations, `calculate_balance_scores` returns the
floating-point infinity itself — not "a large finite constant, never true
infinity". -/
theorem c2_sentinel_counterexample :
    (calculate_balance_scores zeroImb zeroSim exClusterEmpty ∅).1 =
        Score.inf ∧
      ∀ q : ℚ, (calculate_balance_scores zeroImb zeroSim exClusterEmpty
        ∅).1 ≠ Score.fin q := by
  refine ⟨rfl, fun q h => ?_⟩
  rw [show (calculate_balance_scores zeroImb zeroSim exClusterEmpty ∅).1 =
    Score.inf from rfl] at h
  exact Score.noConfusion h

/-- **C2** (amended): when either side's unconsumed list is empty,
`calculate_balance_scores` returns the `float("inf")` sentinel in the total
and in all three components, and the scheduler keeps such clusters out of
selection: `valid_entries` retains only clusters with no infinite component
and every initial active cluster id comes from `valid_entries`. -/
theorem c2_sentinel_and_removal :
    (∀ (E : Type) (imb : Nat → Nat → ℚ) (matchSim : List E → List E → ℚ)
      (data : ClusterData E) (exclusions : Finset Int),
      remainingEmb data.summaries exclusions = [] ∨
        remainingEmb data.current_summaries exclusions = [] →
      calculate_balance_scores imb matchSim data exclusions =
        (Score.inf, ⟨Score.inf, Score.inf, Score.inf⟩)) ∧
    (∀ (E : Type) (P : SchedParams E) (cids : List Int) (st : SchedState)
      (p : Int × ScoreDetail), p ∈ validOf P cids st →
        p.2.hasInf = false) ∧
    (∀ (E : Type) (P : SchedParams E) (cids : List Int) (st : SchedState)
      (e : ActiveEntry), e ∈ initialActive P cids st →
        e.1 ∈ (validOf P cids st).map (·.1)) := by
  refine ⟨?_, ?_, ?_⟩
  · intro E imb matchSim data exclusions hemp
    exact calculate_balance_scores_empty imb matchSim data exclusions hemp
  · intro E P cids st p hp
    have := (List.mem_filter.mp hp).2
    simpa using this
  · intro E P cids st e he
    simp only [initialActive] at he
    obtain ⟨q, hq, rfl⟩ := List.mem_map.mp he
    exact List.mem_map.mpr ⟨q.1, (List.of_mem_zip hq).1, rfl⟩

/-- Witness for C2's amended statement: the concrete exhausted cluster gets
the infinite sentinel, and the one healthy cluster of `exParams` passes the
valid filter into the active list. -/
theorem c2_sentinel_and_removal_witness :
    (remainingEmb exClusterEmpty.summaries ∅ = [] ∨
      remainingEmb exClusterEmpty.current_summaries ∅ = []) ∧
    calculate_balance_scores zeroImb zeroSim exClusterEmpty ∅ =
      (Score.inf, ⟨Score.inf, Score.inf, Score.inf⟩) ∧
    ((0 : Int),
        (calculate_balance_scores zeroImb zeroSim
          (dataOf exParams.cluster_data 0)
          (∅ : Finset Int)).2).2.hasInf = false ∧
    ((initialActive exParams [0] ⟨∅, [], []⟩).headD (0, 0, (0, 0, 0))).1 ∈
      (validOf exParams [0] ⟨∅, [], []⟩).map (·.1) :=
  ⟨Or.inl rfl,
    c2_sentinel_and_removal.1 Unit zeroImb zeroSim exClusterEmpty ∅
      (Or.inl rfl),
    c2_sentinel_and_removal.2.1 Unit exParams [0] ⟨∅, [], []⟩ _
      (List.Mem.head _),
    c2_sentinel_and_removal.2.2 Unit exParams [0] ⟨∅, [], []⟩ _
      (List.Mem.head _)⟩

/-!
### Helper lemmas about the scheduler loop
-/

/-- A non-empty oracle prompt only contains conversations whose `row_idx` is
outside the exclusion set passed at build time. -/
theorem prompt_rows_not_excluded {E : Type}
    {user1 user2 : List (Summary E)} {excl : Finset Int} {p : PromptData}
    (h : generate_serendipity_prompt user1 user2 excl = some p) :
    (∀ i ∈ p.user1_rows, i ∉ excl) ∧ (∀ i ∈ p.user2_rows, i ∉ excl) := by
  simp only [generate_serendipity_prompt] at h
  split at h
  · exact Option.noConfusion h
  · cases h
    constructor <;>
    · intro i hi
      obtain ⟨s, hs, rfl⟩ := List.mem_map.mp hi
      have := List.mem_filter.mp hs
      simpa using this.2

theorem catLoop_zero {E : Type} (P : SchedParams E) (c : String)
    (active : List ActiveEntry) (st : SchedState) :
    catLoop P c 0 active st = (st, true) := rfl

theorem catLoop_stop_empty {E : Type} (P : SchedParams E) (c : String)
    (fuel : Nat) (active : List ActiveEntry) (st : SchedState)
    (h : active.isEmpty = true) :
    catLoop P c (fuel + 1) active st = (st, true) := by
  simp [catLoop, h]

theorem catLoop_stop_total {E : Type} (P : SchedParams E) (c : String)
    (fuel : Nat) (active : List ActiveEntry) (st : SchedState)
    (h : ¬ totalPaths st.catPaths < P.max_paths) :
    catLoop P c (fuel + 1) active st = (st, true) := by
  simp [catLoop, h]

theorem catLoop_stop_cat {E : Type} (P : SchedParams E) (c : String)
    (fuel : Nat) (active : List ActiveEntry) (st : SchedState)
    (h : ¬ ((getCount st.catPaths c : ℤ) <
      ⌈(P.max_paths : ℚ) * ratioOf P.ratios c⌉)) :
    catLoop P c (fuel + 1) active st = (st, true) := by
  simp [catLoop, h]

/-- No branch of the loop ever changes the exclusion set (the one statement
that would, `exclusions.update(...)` at line 332, sits below the raising
tuple unpack). -/
theorem catLoop_exclusions {E : Type} (P : SchedParams E) (c : String) :
    ∀ (fuel : Nat) (active : List ActiveEntry) (st : SchedState),
      (catLoop P c fuel active st).1.exclusions = st.exclusions := by
  intro fuel
  induction fuel with
  | zero => intro active st; rfl
  | succ fuel ih =>
    intro active st
    by_cases h1 : active.isEmpty
    · rw [catLoop_stop_empty P c fuel active st h1]
    · by_cases h2 : totalPaths st.catPaths < P.max_paths
      · by_cases h3 : (getCount st.catPaths c : ℤ) <
            ⌈(P.max_paths : ℚ) * ratioOf P.ratios c⌉
        · cases hpr : generate_serendipity_prompt
              (dataOf P.cluster_data ((List.insertionSort byScoreLe
                active).headD (0, 0, (0, 0, 0))).1).current_summaries
              (dataOf P.cluster_data ((List.insertionSort byScoreLe
                active).headD (0, 0, (0, 0, 0))).1).summaries
              st.exclusions with
          | none =>
            rw [catLoop_pop P c fuel active st (by simpa using h1) h2 h3 hpr]
            exact ih _ _
          | some pr =>
            rw [catLoop_issue P c fuel active st pr (by simpa using h1)
              h2 h3 hpr]
        · rw [catLoop_stop_cat P c fuel active st h3]
      · rw [catLoop_stop_total P c fuel active st h2]

/-- Every request present after a loop run was either already in the state
or was issued by the loop for its own category, for a cluster drawn from the
active list, with a prompt filtered through the exclusion set of the state
it was built in. -/
theorem catLoop_requests {E : Type} (P : SchedParams E) (c : String) :
    ∀ (fuel : Nat) (active : List ActiveEntry) (st : SchedState)
      (r : Request), r ∈ (catLoop P c fuel active st).1.requests →
      r ∈ st.requests ∨
        (r.category = c ∧ r.cid ∈ active.map (fun e => e.1) ∧
          (∀ i ∈ r.prompt.user1_rows, i ∉ st.exclusions) ∧
          (∀ i ∈ r.prompt.user2_rows, i ∉ st.exclusions)) := by
  intro fuel
  induction fuel with
  | zero => intro active st r hr; exact Or.inl hr
  | succ fuel ih =>
    intro active st r hr
    by_cases h1 : active.isEmpty
    · rw [catLoop_stop_empty P c fuel active st h1] at hr
      exact Or.inl hr
    · by_cases h2 : totalPaths st.catPaths < P.max_paths
      · by_cases h3 : (getCount st.catPaths c : ℤ) <
            ⌈(P.max_paths : ℚ) * ratioOf P.ratios c⌉
        · have hperm := List.perm_insertionSort byScoreLe active
          cases hpr : generate_serendipity_prompt
              (dataOf P.cluster_data ((List.insertionSort byScoreLe
                active).headD (0, 0, (0, 0, 0))).1).current_summaries
              (dataOf P.cluster_data ((List.insertionSort byScoreLe
                active).headD (0, 0, (0, 0, 0))).1).summaries
              st.exclusions with
          | none =>
            rw [catLoop_pop P c fuel active st (by simpa using h1)
              h2 h3 hpr] at hr
            rcases ih _ _ _ hr with h | ⟨hcat, hcid, hp1, hp2⟩
            · exact Or.inl h
            · refine Or.inr ⟨hcat, ?_, hp1, hp2⟩
              obtain ⟨e, he, heq⟩ := List.mem_map.mp hcid
              exact List.mem_map.mpr
                ⟨e, hperm.mem_iff.mp (List.mem_of_mem_tail he), heq⟩
          | some pr =>
            rw [catLoop_issue P c fuel active st pr (by simpa using h1)
              h2 h3 hpr] at hr
            rcases List.mem_append.mp hr with h | h
            · exact Or.inl h
            · have hreq : r = ⟨c, ((List.insertionSort byScoreLe
                  active).headD (0, 0, (0, 0, 0))).1, pr⟩ := by simpa using h
              subst hreq
              have hmemtop : ((List.insertionSort byScoreLe active).headD
                  (0, 0, (0, 0, 0))) ∈ active := by
                have hne : List.insertionSort byScoreLe active ≠ [] := by
                  intro hnil
                  have := List.length_insertionSort byScoreLe active
                  rw [hnil] at this
                  simp only [List.length_nil] at this
                  rw [List.isEmpty_iff] at h1
                  exact h1 (List.length_eq_zero.mp this.symm)
                cases hs : List.insertionSort byScoreLe active with
                | nil => exact absurd hs hne
                | cons a tl =>
                  have ha : a ∈ List.insertionSort byScoreLe active := by
                    rw [hs]
                    exact List.mem_cons_self a tl
                  simpa using hperm.mem_iff.mp ha
              have hpr2 := prompt_rows_not_excluded hpr
              exact Or.inr ⟨rfl,
                List.mem_map.mpr ⟨_, hmemtop, rfl⟩, hpr2.1, hpr2.2⟩
        · rw [catLoop_stop_cat P c fuel active st h3] at hr
          exact Or.inl hr
      · rw [catLoop_stop_total P c fuel active st h2] at hr
        exact Or.inl hr

/-- Clusters surviving the `valid_entries` filter come from the given ids. -/
theorem validOf_cid_mem {E : Type} (P : SchedParams E) (cids : List Int)
    (st : SchedState) (p : Int × ScoreDetail) (hp : p ∈ validOf P cids st) :
    p.1 ∈ cids := by
  have := (List.mem_filter.mp hp).1
  obtain ⟨cid, hc, heq⟩ := List.mem_map.mp this
  cases heq
  exact hc

/-- Every initial active entry's cluster id comes from `valid_entries`. -/
theorem initialActive_cid_mem {E : Type} (P : SchedParams E)
    (cids : List Int) (st : SchedState) (e : ActiveEntry)
    (he : e ∈ initialActive P cids st) :
    e.1 ∈ (validOf P cids st).map (fun p => p.1) := by
  simp only [initialActive] at he
  obtain ⟨q, hq, rfl⟩ := List.mem_map.mp he
  exact List.mem_map.mpr ⟨q.1, (List.of_mem_zip hq).1, rfl⟩

/-- `runCategory` never changes the exclusion set. -/
theorem runCategory_exclusions {E : Type} (P : SchedParams E) (c : String)
    (cids : List Int) (st : SchedState) :
    (runCategory P c cids st).1.exclusions = st.exclusions := by
  unfold runCategory
  split
  · rfl
  · split
    · rfl
    · exact catLoop_exclusions P c _ _ st

/-- Requests added by one category run carry that category, a cluster id
from the supplied list, and an exclusion-filtered prompt. -/
theorem runCategory_requests {E : Type} (P : SchedParams E) (c : String)
    (cids : List Int) (st : SchedState) (r : Request)
    (hr : r ∈ (runCategory P c cids st).1.requests) :
    r ∈ st.requests ∨
      (r.category = c ∧ r.cid ∈ cids ∧
        (∀ i ∈ r.prompt.user1_rows, i ∉ st.exclusions) ∧
        (∀ i ∈ r.prompt.user2_rows, i ∉ st.exclusions)) := by
  unfold runCategory at hr
  split at hr
  · exact Or.inl hr
  · split at hr
    · exact Or.inl hr
    · rcases catLoop_requests P c _ _ st r hr with h | ⟨hcat, hcid, hp1, hp2⟩
      · exact Or.inl h
      · refine Or.inr ⟨hcat, ?_, hp1, hp2⟩
        obtain ⟨e, he, heq⟩ := List.mem_map.mp hcid
        rw [← heq]
        have := initialActive_cid_mem P cids st e he
        obtain ⟨q, hq, heq2⟩ := List.mem_map.mp this
        rw [← heq2]
        exact validOf_cid_mem P cids st q hq

/-- Splitting membership in `addToCat`'s result. -/
theorem mem_addToCat {m : List (String × List Int)} {c0 : String}
    {cid0 : Int} {e : String × List Int} (he : e ∈ addToCat m c0 cid0) :
    e ∈ m ∨ (∃ e0 ∈ m, e0.1 = c0 ∧ e = (e0.1, e0.2 ++ [cid0])) ∨
      e = (c0, [cid0]) := by
  unfold addToCat at he
  split at he
  · obtain ⟨e0, he0, rfl⟩ := List.mem_map.mp he
    by_cases hc : e0.1 = c0
    · right
      left
      exact ⟨e0, he0, hc, by simp [hc]⟩
    · left
      rw [if_neg hc]
      exact he0
  · rcases List.mem_append.mp he with h | h
    · exact Or.inl h
    · right
      right
      simpa using h

/-- Every entry of `category_to_clusters` has a positive configured ratio,
and each of its cluster ids belongs to a cluster of that very category. -/
theorem categoryToClusters_entries {E : Type} (ratios : List (String × ℚ))
    (cd : List (Int × ClusterData E)) :
    ∀ e ∈ categoryToClusters ratios cd,
      0 < ratioOf ratios e.1 ∧
        ∀ cid ∈ e.2, ∃ d, (cid, d) ∈ cd ∧ d.category = e.1 := by
  suffices h : ∀ (suffix : List (Int × ClusterData E))
      (m : List (String × List Int)),
      (∀ p ∈ suffix, p ∈ cd) →
      (∀ e ∈ m, 0 < ratioOf ratios e.1 ∧
        ∀ cid ∈ e.2, ∃ d, (cid, d) ∈ cd ∧ d.category = e.1) →
      ∀ e ∈ suffix.foldl
        (fun m p => if 0 < ratioOf ratios p.2.category then
          addToCat m p.2.category p.1 else m) m,
        0 < ratioOf ratios e.1 ∧
          ∀ cid ∈ e.2, ∃ d, (cid, d) ∈ cd ∧ d.category = e.1 by
    intro e he
    exact h cd [] (fun p hp => hp) (by simp) e he
  intro suffix
  induction suffix with
  | nil =>
    intro m _ hm e he
    exact hm e he
  | cons p tl ih =>
    intro m hsub hm e he
    simp only [List.foldl_cons] at he
    refine ih _ (fun q hq => hsub q (List.mem_cons_of_mem p hq)) ?_ e he
    intro e0 he0
    by_cases hr : 0 < ratioOf ratios p.2.category
    · rw [if_pos hr] at he0
      rcases mem_addToCat he0 with h | ⟨e1, he1, hkey, rfl⟩ | rfl
      · exact hm e0 h
      · refine ⟨(hm e1 he1).1, ?_⟩
        intro cid hcid
        rcases List.mem_append.mp hcid with h | h
        · exact (hm e1 he1).2 cid h
        · have hc : cid = p.1 := by simpa using h
          subst hc
          exact ⟨p.2, hsub p (List.mem_cons_self p tl), hkey.symm⟩
      · refine ⟨hr, ?_⟩
        intro cid hcid
        have hc : cid = p.1 := by simpa using hcid
        subst hc
        exact ⟨p.2, hsub p (List.mem_cons_self p tl), rfl⟩
    · rw [if_neg hr] at he0
      exact hm e0 he0

/-- Resolving a `category_to_clusters[c]` lookup to an entry. -/
theorem lookupCids_mem {m : List (String × List Int)} {c : String}
    {cid : Int} (h : cid ∈ lookupCids m c) :
    ∃ l, (c, l) ∈ m ∧ cid ∈ l := by
  unfold lookupCids at h
  cases hf : m.find? (fun p => p.1 = c) with
  | none =>
    rw [hf] at h
    simp at h
  | some e =>
    rw [hf] at h
    have hm := List.mem_of_find?_eq_some hf
    have hc : e.1 = c := by simpa using List.find?_some hf
    refine ⟨e.2, ?_, by simpa using h⟩
    rw [← hc]
    exact hm

/-- A cluster id reachable through `category_to_clusters[c]` belongs to a
cluster of category `c` whose configured ratio is positive. -/
theorem categoryToClusters_lookup {E : Type} (ratios : List (String × ℚ))
    (cd : List (Int × ClusterData E)) (c : String) (cid : Int)
    (h : cid ∈ lookupCids (categoryToClusters ratios cd) c) :
    0 < ratioOf ratios c ∧ ∃ d, (cid, d) ∈ cd ∧ d.category = c := by
  obtain ⟨l, hl, hcid⟩ := lookupCids_mem h
  have := categoryToClusters_entries ratios cd (c, l) hl
  exact ⟨this.1, this.2 cid hcid⟩

/-!
### C1 — exclusion monotonicity and prompt filtering
-/

/-- **C1**: within one scheduling pass the exclusion set only ever grows —
each loop step's resulting set is a superset of the one it started from (in
fact equal: the only mutating statement, `exclusions.update(...)` at line
332, sits below the raising tuple unpack) — and every oracle prompt built by
`generate_serendipity_prompt` contains only conversations whose `row_idx`
is outside the exclusion set at build time; hence an index in the set is
never again offered to the oracle. -/
theorem c1_exclusions_monotone_prompts_filtered :
    (∀ (E : Type) (user1 user2 : List (Summary E)) (excl : Finset Int)
      (p : PromptData),
      generate_serendipity_prompt user1 user2 excl = some p →
        (∀ i ∈ p.user1_rows, i ∉ excl) ∧ (∀ i ∈ p.user2_rows, i ∉ excl)) ∧
    (∀ (E : Type) (P : SchedParams E) (c : String) (fuel : Nat)
      (active : List ActiveEntry) (st : SchedState),
      st.exclusions ⊆ (catLoop P c fuel active st).1.exclusions) ∧
    (∀ (E : Type) (P : SchedParams E) (c : String) (cids : List Int)
      (st : SchedState),
      st.exclusions ⊆ (runCategory P c cids st).1.exclusions) ∧
    (∀ (E : Type) (P : SchedParams E) (c : String) (fuel : Nat)
      (active : List ActiveEntry) (st : SchedState) (r : Request),
      r ∈ (catLoop P c fuel active st).1.requests →
        r ∈ st.requests ∨
          ((∀ i ∈ r.prompt.user1_rows, i ∉ st.exclusions) ∧
            (∀ i ∈ r.prompt.user2_rows, i ∉ st.exclusions))) := by
  refine ⟨?_, ?_, ?_, ?_⟩
  · intro E u1 u2 excl p h
    exact prompt_rows_not_excluded h
  · intro E P c fuel active st
    rw [catLoop_exclusions]
  · intro E P c cids st
    rw [runCategory_exclusions]
  · intro E P c fuel active st r hr
    rcases catLoop_requests P c fuel active st r hr with h | ⟨-, -, hp1, hp2⟩
    · exact Or.inl h
    · exact Or.inr ⟨hp1, hp2⟩

/-- Witness for C1: a prompt built against the exclusion set `{5}` omits
index 5, and the one request issued by the concrete `exParams` run was built
against the (empty) exclusion set of its state. -/
theorem c1_witness :
    generate_serendipity_prompt [exSummary 0] [exSummary 1]
        ({5} : Finset Int) = some ⟨[0], [1]⟩ ∧
    ((∀ i ∈ ([0] : List Int), i ∉ ({5} : Finset Int)) ∧
      (∀ i ∈ ([1] : List Int), i ∉ ({5} : Finset Int))) ∧
    (⟨∅, [], []⟩ : SchedState).exclusions ⊆
      (catLoop exParams "a" 1 (initialActive exParams [0] ⟨∅, [], []⟩)
        ⟨∅, [], []⟩).1.exclusions ∧
    ((⟨"a", 0, ⟨[0], [1]⟩⟩ : Request) ∈ ([] : List Request) ∨
      ((∀ i ∈ ([0] : List Int), i ∉ (∅ : Finset Int)) ∧
        (∀ i ∈ ([1] : List Int), i ∉ (∅ : Finset Int)))) := by
  have hmem : (⟨"a", 0, ⟨[0], [1]⟩⟩ : Request) ∈
      (catLoop exParams "a" 1 (initialActive exParams [0] ⟨∅, [], []⟩)
        ⟨∅, [], []⟩).1.requests := by
    rw [catLoop_issue exParams "a" 0
      (initialActive exParams [0] ⟨∅, [], []⟩) ⟨∅, [], []⟩ ⟨[0], [1]⟩ rfl
      (by decide) (by norm_num [getCount, ratioOf, exParams]) rfl]
    exact List.Mem.head _
  refine ⟨rfl,
    c1_exclusions_monotone_prompts_filtered.1 Unit [exSummary 0]
      [exSummary 1] {5} ⟨[0], [1]⟩ rfl,
    c1_exclusions_monotone_prompts_filtered.2.1 Unit exParams "a" 1
      (initialActive exParams [0] ⟨∅, [], []⟩) ⟨∅, [], []⟩,
    c1_exclusions_monotone_prompts_filtered.2.2.2 Unit exParams "a" 1
      (initialActive exParams [0] ⟨∅, [], []⟩) ⟨∅, [], []⟩
      ⟨"a", 0, ⟨[0], [1]⟩⟩ hmem⟩

/-!
### C8 — category ratios
-/

/-- **C8**: every oracle request of a scheduling pass is for a cluster whose
category has a strictly positive configured ratio (zero-ratio categories are
dropped before the loop even starts), the categories are processed in
descending ratio order, and in the `{"a": 1.0, "b": 0.0}` scenario with one
cluster per category no request is ever issued for category "b". -/
theorem c8_zero_ratio_never_requested :
    (∀ (E : Type) (P : SchedParams E) (r : Request),
      r ∈ (generate_paths P).1.requests →
        0 < ratioOf P.ratios r.category ∧
          ∃ d, (r.cid, d) ∈ P.cluster_data ∧ d.category = r.category) ∧
    (∀ (E : Type) (P : SchedParams E),
      (sortedCategories P).Sorted
        (fun c1 c2 => ratioOf P.ratios c2 ≤ ratioOf P.ratios c1)) ∧
    (∀ r : Request, r ∈ (generate_paths exParamsAB).1.requests →
      r.category ≠ "b") := by
  refine ⟨?_, ?_, ?_⟩
  · intro E P r hr
    have main : ∀ (cats : List String) (acc : SchedState × Bool),
        (∀ r0 ∈ acc.1.requests, 0 < ratioOf P.ratios r0.category ∧
          ∃ d, (r0.cid, d) ∈ P.cluster_data ∧ d.category = r0.category) →
        ∀ r0 ∈ (cats.foldl
          (fun acc c =>
            if acc.2 then
              runCategory P c
                (lookupCids (categoryToClusters P.ratios P.cluster_data) c)
                acc.1
            else acc) acc).1.requests,
          0 < ratioOf P.ratios r0.category ∧
            ∃ d, (r0.cid, d) ∈ P.cluster_data ∧
              d.category = r0.category := by
      intro cats
      induction cats with
      | nil =>
        intro acc hacc r0 hr0
        exact hacc r0 hr0
      | cons c tl ih =>
        intro acc hacc r0 hr0
        simp only [List.foldl_cons] at hr0
        refine ih _ ?_ r0 hr0
        intro r1 hr1
        by_cases hb : acc.2
        · rw [if_pos hb] at hr1
          rcases runCategory_requests P c _ acc.1 r1 hr1 with
            h | ⟨hcat, hcid, -, -⟩
          · exact hacc r1 h
          · have hlook := categoryToClusters_lookup P.ratios
              P.cluster_data c r1.cid hcid
            rw [hcat]
            exact hlook
        · rw [if_neg hb] at hr1
          exact hacc r1 hr1
    simp only [generate_paths] at hr
    exact main (sortedCategories P) (⟨∅, [], []⟩, true) (by simp) r hr
  · intro E P
    haveI : IsTotal String
        (fun c1 c2 => ratioOf P.ratios c2 ≤ ratioOf P.ratios c1) :=
      ⟨fun a b => le_total _ _⟩
    haveI : IsTrans String
        (fun c1 c2 => ratioOf P.ratios c2 ≤ ratioOf P.ratios c1) :=
      ⟨fun _ _ _ h1 h2 => le_trans h2 h1⟩
    exact List.sorted_insertionSort _ _
  · intro r hr
    have h0 : generate_paths exParamsAB =
        catLoop exParamsAB "a" 1
          (initialActive exParamsAB [0] ⟨∅, [], []⟩) ⟨∅, [], []⟩ := rfl
    rw [h0, catLoop_issue exParamsAB "a" 0
      (initialActive exParamsAB [0] ⟨∅, [], []⟩) ⟨∅, [], []⟩ ⟨[0], [1]⟩ rfl
      (by decide)
      (by norm_num [getCount, ratioOf, exParamsAB, exParams]) rfl] at hr
    have hreq : r = ⟨"a", 0, ⟨[0], [1]⟩⟩ := by simpa using hr
    subst hreq
    decide

/-- Witness for C8: the one request of the `{"a": 1.0, "b": 0.0}` run is for
category "a", whose ratio is positive, and is not for "b". -/
theorem c8_witness :
    ((⟨"a", 0, ⟨[0], [1]⟩⟩ : Request) ∈
        (generate_paths exParamsAB).1.requests) ∧
    (0 < ratioOf exParamsAB.ratios "a" ∧
      ∃ d, ((0 : Int), d) ∈ exParamsAB.cluster_data ∧ d.category = "a") ∧
    (⟨"a", 0, ⟨[0], [1]⟩⟩ : Request).category ≠ "b" := by
  have hmem : (⟨"a", 0, ⟨[0], [1]⟩⟩ : Request) ∈
      (generate_paths exParamsAB).1.requests := by
    have h0 : generate_paths exParamsAB =
        catLoop exParamsAB "a" 1
          (initialActive exParamsAB [0] ⟨∅, [], []⟩) ⟨∅, [], []⟩ := rfl
    rw [h0, catLoop_issue exParamsAB "a" 0
      (initialActive exParamsAB [0] ⟨∅, [], []⟩) ⟨∅, [], []⟩ ⟨[0], [1]⟩ rfl
      (by decide)
      (by norm_num [getCount, ratioOf, exParamsAB, exParams]) rfl]
    exact List.Mem.head _
  exact ⟨hmem,
    c8_zero_ratio_never_requested.1 Unit exParamsAB _ hmem,
    c8_zero_ratio_never_requested.2.2 _ hmem⟩

/-!
### Helper lemmas for the duplicate-fixing pass
-/

theorem fixList_foldl_acc (l : List Int) :
    ∀ (s : Finset Int) (L : List Int),
      l.foldl
        (fun acc x =>
          if x ∈ acc.1 then acc else (insert x acc.1, acc.2 ++ [x]))
        (s, L) =
      ((fixList s l).1, L ++ (fixList s l).2) := by
  induction l with
  | nil =>
    intro s L
    simp [fixList]
  | cons x tl ih =>
    intro s L
    by_cases hx : x ∈ s
    · simp only [fixList, List.foldl_cons, if_pos hx]
      exact ih s L
    · simp only [fixList, List.foldl_cons, if_neg hx, List.nil_append]
      rw [ih (insert x s) (L ++ [x]), ih (insert x s) [x]]
      simp

theorem fixList_cons (s : Finset Int) (x : Int) (tl : List Int) :
    fixList s (x :: tl) =
      if x ∈ s then fixList s tl
      else ((fixList (insert x s) tl).1,
        x :: (fixList (insert x s) tl).2) := by
  by_cases hx : x ∈ s
  · simp only [fixList, List.foldl_cons, if_pos hx]
  · simp only [fixList, List.foldl_cons, if_neg hx, List.nil_append]
    rw [show ([x] : List Int) = [] ++ [x] from rfl, fixList_foldl_acc]
    simp [fixList]

theorem fixList_append (s : Finset Int) (l1 l2 : List Int) :
    fixList s (l1 ++ l2) =
      ((fixList (fixList s l1).1 l2).1,
        (fixList s l1).2 ++ (fixList (fixList s l1).1 l2).2) := by
  have h := fixList_foldl_acc l2 (fixList s l1).1 (fixList s l1).2
  rw [Prod.mk.eta] at h
  unfold fixList
  rw [List.foldl_append]
  exact h

theorem fixList_out_mem (l : List Int) :
    ∀ (s : Finset Int) (x : Int),
      x ∈ (fixList s l).2 ↔ x ∈ l ∧ x ∉ s := by
  induction l with
  | nil =>
    intro s x
    simp [fixList]
  | cons y tl ih =>
    intro s x
    rw [fixList_cons]
    by_cases hy : y ∈ s
    · rw [if_pos hy, ih]
      constructor
      · rintro ⟨h, hs⟩
        exact ⟨List.mem_cons_of_mem y h, hs⟩
      · rintro ⟨h, hs⟩
        rcases List.mem_cons.mp h with rfl | h
        · exact absurd hy hs
        · exact ⟨h, hs⟩
    · rw [if_neg hy]
      simp only [List.mem_cons, ih]
      constructor
      · rintro (rfl | ⟨h, hins⟩)
        · exact ⟨Or.inl rfl, hy⟩
        · exact ⟨Or.inr h, fun hs => hins (Finset.mem_insert_of_mem hs)⟩
      · rintro ⟨rfl | h, hs⟩
        · exact Or.inl rfl
        · by_cases hxy : x = y
          · exact Or.inl hxy
          · exact Or.inr ⟨h, by simp [Finset.mem_insert, hxy, hs]⟩

theorem fixList_nodup (l : List Int) :
    ∀ s : Finset Int, (fixList s l).2.Nodup := by
  induction l with
  | nil =>
    intro s
    simp [fixList]
  | cons y tl ih =>
    intro s
    rw [fixList_cons]
    by_cases hy : y ∈ s
    · rw [if_pos hy]
      exact ih s
    · rw [if_neg hy]
      refine List.nodup_cons.mpr ⟨?_, ih (insert y s)⟩
      intro hmem
      exact ((fixList_out_mem tl (insert y s) y).mp hmem).2
        (Finset.mem_insert_self y s)

/-- One row's fix equals the flat first-occurrence pass over its indices. -/
theorem fixRow_spec (s : Finset Int) (row : PathRow) :
    (fixRow s row).1 = (fixList s (rowIndices row)).1 ∧
      rowIndices (fixRow s row).2 = (fixList s (rowIndices row)).2 := by
  constructor
  · simp only [rowIndices]
    rw [fixList_append, fixList_append]
    rfl
  · simp only [rowIndices]
    rw [fixList_append, fixList_append]
    rfl

/-- The group fold equals the flat first-occurrence pass over all indices. -/
theorem fixGroup_fold (rows : List PathRow) :
    ∀ (s : Finset Int) (out : List PathRow),
      (rows.foldl
        (fun acc row =>
          ((fixRow acc.1 row).1, acc.2 ++ [(fixRow acc.1 row).2]))
        (s, out)).1 = (fixList s (rowsIndices rows)).1 ∧
      rowsIndices (rows.foldl
        (fun acc row =>
          ((fixRow acc.1 row).1, acc.2 ++ [(fixRow acc.1 row).2]))
        (s, out)).2 = rowsIndices out ++ (fixList s (rowsIndices rows)).2 := by
  induction rows with
  | nil =>
    intro s out
    simp [rowsIndices, fixList]
  | cons row tl ih =>
    intro s out
    simp only [List.foldl_cons]
    have h1 := (fixRow_spec s row).1
    have h2 := (fixRow_spec s row).2
    have hflat : rowsIndices (row :: tl) =
        rowIndices row ++ rowsIndices tl := by
      simp [rowsIndices]
    have hout : rowsIndices (out ++ [(fixRow s row).2]) =
        rowsIndices out ++ rowIndices (fixRow s row).2 := by
      simp [rowsIndices]
    have htl := ih (fixRow s row).1 (out ++ [(fixRow s row).2])
    constructor
    · rw [htl.1, h1, hflat, fixList_append]
    · rw [htl.2, hout, h2, h1, hflat, fixList_append,
        List.append_assoc]

theorem fixGroup_spec (rows : List PathRow) :
    rowsIndices (fixGroup rows) = dedupKeepFirst (rowsIndices rows) := by
  unfold fixGroup dedupKeepFirst
  have := (fixGroup_fold rows ∅ []).2
  simpa [rowsIndices] using this

theorem fixGroup_nodup (rows : List PathRow) :
    (rowsIndices (fixGroup rows)).Nodup := by
  rw [fixGroup_spec]
  exact fixList_nodup _ ∅

/-- The duplicate fix never changes any row's match group id. -/
theorem fixGroup_fold_mg (rows : List PathRow) :
    ∀ (s : Finset Int) (out : List PathRow),
      ((rows.foldl
        (fun acc row =>
          ((fixRow acc.1 row).1, acc.2 ++ [(fixRow acc.1 row).2]))
        (s, out)).2).map (fun r => r.match_group_id) =
        out.map (fun r => r.match_group_id) ++
          rows.map (fun r => r.match_group_id) := by
  induction rows with
  | nil =>
    intro s out
    simp
  | cons row tl ih =>
    intro s out
    simp only [List.foldl_cons]
    rw [ih]
    simp [fixRow]

theorem fixGroup_mg (rows : List PathRow) :
    (fixGroup rows).map (fun r => r.match_group_id) =
      rows.map (fun r => r.match_group_id) := by
  unfold fixGroup
  simpa using fixGroup_fold_mg rows ∅ []

theorem ukf_mem (l : List Int) :
    ∀ (acc : List Int) (x : Int),
      x ∈ l.foldl (fun acc x => if x ∈ acc then acc else acc ++ [x]) acc ↔
        x ∈ acc ∨ x ∈ l := by
  induction l with
  | nil =>
    intro acc x
    simp
  | cons y tl ih =>
    intro acc x
    simp only [List.foldl_cons]
    by_cases hy : y ∈ acc
    · rw [if_pos hy, ih]
      constructor
      · rintro (h | h)
        · exact Or.inl h
        · exact Or.inr (List.mem_cons_of_mem y h)
      · rintro (h | h)
        · exact Or.inl h
        · rcases List.mem_cons.mp h with rfl | h
          · exact Or.inl hy
          · exact Or.inr h
    · rw [if_neg hy, ih]
      simp only [List.mem_append, List.mem_cons, List.mem_singleton]
      tauto

theorem ukf_nodup (l : List Int) :
    ∀ acc : List Int, acc.Nodup →
      (l.foldl (fun acc x => if x ∈ acc then acc else acc ++ [x])
        acc).Nodup := by
  induction l with
  | nil =>
    intro acc h
    simpa using h
  | cons y tl ih =>
    intro acc h
    simp only [List.foldl_cons]
    by_cases hy : y ∈ acc
    · rw [if_pos hy]
      exact ih acc h
    · rw [if_neg hy]
      refine ih _ ?_
      simp [List.nodup_append, h, hy]

theorem mem_uniqueKeysFirst {l : List Int} {x : Int} :
    x ∈ uniqueKeysFirst l ↔ x ∈ l := by
  unfold uniqueKeysFirst
  rw [ukf_mem]
  simp

theorem uniqueKeysFirst_nodup (l : List Int) : (uniqueKeysFirst l).Nodup := by
  unfold uniqueKeysFirst
  exact ukf_nodup l [] (by simp)

theorem filter_flatMap {α β : Type} (p : β → Bool) (f : α → List β)
    (l : List α) :
    (l.flatMap f).filter p = l.flatMap (fun a => (f a).filter p) := by
  induction l with
  | nil => simp
  | cons a tl ih => simp [List.flatMap_cons, List.filter_append, ih]

/-- Restricting `_fix_duplicates` to one match group is the same as fixing
that group's rows alone. -/
theorem fix_duplicates_filter (df : List PathRow) (mg : Int) :
    (fix_duplicates df).filter (fun r => decide (r.match_group_id = mg)) =
      fixGroup (df.filter (fun r => decide (r.match_group_id = mg))) := by
  have hcontrib : ∀ mg0 : Int, mg0 ≠ mg →
      (fixGroup (df.filter
        (fun r => decide (r.match_group_id = mg0)))).filter
          (fun r => decide (r.match_group_id = mg)) = [] := by
    intro mg0 hne
    rw [List.filter_eq_nil_iff]
    intro r hr
    have hmap := fixGroup_mg
      (df.filter (fun r => decide (r.match_group_id = mg0)))
    have hmem : r.match_group_id ∈
        (fixGroup (df.filter
          (fun r => decide (r.match_group_id = mg0)))).map
            (fun r => r.match_group_id) :=
      List.mem_map_of_mem _ hr
    rw [hmap] at hmem
    obtain ⟨r0, hr0, heq⟩ := List.mem_map.mp hmem
    have hmg0 : r0.match_group_id = mg0 := by
      simpa using (List.mem_filter.mp hr0).2
    rw [hmg0] at heq
    simp [← heq, hne]
  have hallnil : ∀ keys : List Int, (∀ k ∈ keys, k ≠ mg) →
      keys.flatMap (fun mg0 =>
        (fixGroup (df.filter
          (fun r => decide (r.match_group_id = mg0)))).filter
            (fun r => decide (r.match_group_id = mg))) = [] := by
    intro keys
    induction keys with
    | nil => intro _; simp
    | cons k ks ih =>
      intro hk
      simp only [List.flatMap_cons,
        hcontrib k (hk k (List.mem_cons_self k ks)), List.nil_append]
      exact ih (fun k0 h0 => hk k0 (List.mem_cons_of_mem k h0))
  have hself : (fixGroup (df.filter
      (fun r => decide (r.match_group_id = mg)))).filter
        (fun r => decide (r.match_group_id = mg)) =
      fixGroup (df.filter (fun r => decide (r.match_group_id = mg))) := by
    rw [List.filter_eq_self]
    intro r hr
    have hmap := fixGroup_mg
      (df.filter (fun r => decide (r.match_group_id = mg)))
    have hmem : r.match_group_id ∈
        (fixGroup (df.filter
          (fun r => decide (r.match_group_id = mg)))).map
            (fun r => r.match_group_id) :=
      List.mem_map_of_mem _ hr
    rw [hmap] at hmem
    obtain ⟨r0, hr0, heq⟩ := List.mem_map.mp hmem
    have hmg0 : r0.match_group_id = mg := by
      simpa using (List.mem_filter.mp hr0).2
    rw [hmg0] at heq
    simp [← heq]
  unfold fix_duplicates
  rw [filter_flatMap]
  by_cases hmem : mg ∈ uniqueKeysFirst (df.map (fun r => r.match_group_id))
  · have honce : ∀ keys : List Int, keys.Nodup → mg ∈ keys →
        keys.flatMap (fun mg0 =>
          (fixGroup (df.filter
            (fun r => decide (r.match_group_id = mg0)))).filter
              (fun r => decide (r.match_group_id = mg))) =
          fixGroup (df.filter (fun r => decide (r.match_group_id = mg))) := by
      intro keys
      induction keys with
      | nil =>
        intro _ h
        simp at h
      | cons k ks ih =>
        intro hnd hm
        rcases List.mem_cons.mp hm with rfl | hm0
        · have hnot : mg ∉ ks := (List.nodup_cons.mp hnd).1
          simp only [List.flatMap_cons, hself]
          rw [hallnil ks (fun k0 h0 => fun heq => hnot (heq ▸ h0))]
          simp
        · have hk : k ≠ mg := by
            rintro rfl
            exact (List.nodup_cons.mp hnd).1 hm0
          simp only [List.flatMap_cons, hcontrib k hk, List.nil_append]
          exact ih (List.nodup_cons.mp hnd).2 hm0
    exact honce _ (uniqueKeysFirst_nodup _) hmem
  · have hdf : df.filter (fun r => decide (r.match_group_id = mg)) = [] := by
      rw [List.filter_eq_nil_iff]
      intro r hr hdec
      have hrm : r.match_group_id = mg := by simpa using hdec
      exact hmem (mem_uniqueKeysFirst.mpr
        (hrm ▸ List.mem_map_of_mem _ hr))
    rw [hdf, hallnil _ (fun k hk => fun heq => hmem (heq ▸ hk))]
    rfl

/-!
### C9 — no duplicate indices within a match group after fixing
-/

/-- **C9**: after `_fix_duplicates`, within every match group no index
appears more than once across all rows' `common_indices`, `user1_indices`,
`user2_indices` lists; and the pass keeps exactly the first occurrence in
iteration order — the group's flattened indices equal the first-occurrence
dedup of the input group's flattened indices (checked also on a concrete
frame with duplicates inside match group 5). -/
theorem c9_no_cross_duplicates_first_kept :
    (∀ (df : List PathRow) (mg : Int),
      rowsIndices ((fix_duplicates df).filter
          (fun r => decide (r.match_group_id = mg))) =
        dedupKeepFirst (rowsIndices (df.filter
          (fun r => decide (r.match_group_id = mg)))) ∧
      (rowsIndices ((fix_duplicates df).filter
          (fun r => decide (r.match_group_id = mg)))).Nodup) ∧
    fix_duplicates exPaths =
      [⟨5, [1, 2], [3], [4]⟩, ⟨5, [9], [7], [8]⟩, ⟨6, [1], [2], [3]⟩] := by
  constructor
  · intro df mg
    rw [fix_duplicates_filter]
    exact ⟨fixGroup_spec _, fixGroup_nodup _⟩
  · decide

/-!
### Helper lemmas for the size-constrained clustering loop
-/

/-- Successful attempt: the ceiling is met, return at once. -/
theorem aggLoop_success {clusterer : Nat → List Nat} {n c : Nat}
    (r ncl : Nat) (prevSize : Option Nat) (prevLabels : Option (List Nat))
    (log : List ClusterLog) (att : List Nat)
    (h : largestClusterSize (clusterer ncl) ≤ c) :
    aggLoop clusterer n c r ncl prevSize prevLabels log att =
      (clusterer ncl,
        log ++ [ClusterLog.attempt ncl n,
          ClusterLog.success (largestClusterSize (clusterer ncl))],
        att ++ [ncl]) := by
  unfold aggLoop
  rw [if_pos h]
  simp

/-- No improvement over the previous attempt: fall back to the previous
labels and stop. -/
theorem aggLoop_noimprove {clusterer : Nat → List Nat} {n c : Nat}
    (r ncl : Nat) (prevSize : Option Nat) (prevLabels : Option (List Nat))
    (log : List ClusterLog) (att : List Nat)
    (h : ¬ largestClusterSize (clusterer ncl) ≤ c)
    (hcond : (match prevSize with
      | some p => decide (p ≤ largestClusterSize (clusterer ncl))
      | Option.none => false) = true) :
    aggLoop clusterer n c r ncl prevSize prevLabels log att =
      (prevLabels.getD (clusterer ncl),
        log ++ [ClusterLog.attempt ncl n, ClusterLog.noImprovement],
        att ++ [ncl]) := by
  unfold aggLoop
  rw [if_neg h, if_pos hcond]
  simp

/-- The safety valve: the incremented cluster count reaches the item count. -/
theorem aggLoop_reachedMax {clusterer : Nat → List Nat} {n c : Nat}
    (r ncl : Nat) (prevSize : Option Nat) (prevLabels : Option (List Nat))
    (log : List ClusterLog) (att : List Nat)
    (h : ¬ largestClusterSize (clusterer ncl) ≤ c)
    (hcond : (match prevSize with
      | some p => decide (p ≤ largestClusterSize (clusterer ncl))
      | Option.none => false) = false)
    (hmax : n ≤ ncl + 1) :
    aggLoop clusterer n c r ncl prevSize prevLabels log att =
      (clusterer ncl,
        log ++ [ClusterLog.attempt ncl n,
          ClusterLog.exceedsMax (largestClusterSize (clusterer ncl)),
          ClusterLog.reachedMax],
        att ++ [ncl]) := by
  unfold aggLoop
  rw [if_neg h, if_neg (by simp [hcond]), if_pos hmax]
  simp

/-- The iteration budget runs out after the current attempt. -/
theorem aggLoop_exhausted {clusterer : Nat → List Nat} {n c : Nat}
    (ncl : Nat) (prevSize : Option Nat) (prevLabels : Option (List Nat))
    (log : List ClusterLog) (att : List Nat)
    (h : ¬ largestClusterSize (clusterer ncl) ≤ c)
    (hcond : (match prevSize with
      | some p => decide (p ≤ largestClusterSize (clusterer ncl))
      | Option.none => false) = false)
    (hmax : ¬ n ≤ ncl + 1) :
    aggLoop clusterer n c 0 ncl prevSize prevLabels log att =
      (clusterer ncl,
        log ++ [ClusterLog.attempt ncl n,
          ClusterLog.exceedsMax (largestClusterSize (clusterer ncl))],
        att ++ [ncl]) := by
  unfold aggLoop
  rw [if_neg h, if_neg (by simp [hcond]), if_neg hmax]
  simp

/-- The continuing iteration: one more cluster, one fewer retry. -/
theorem aggLoop_continue {clusterer : Nat → List Nat} {n c : Nat}
    (r ncl : Nat) (prevSize : Option Nat) (prevLabels : Option (List Nat))
    (log : List ClusterLog) (att : List Nat)
    (h : ¬ largestClusterSize (clusterer ncl) ≤ c)
    (hcond : (match prevSize with
      | some p => decide (p ≤ largestClusterSize (clusterer ncl))
      | Option.none => false) = false)
    (hmax : ¬ n ≤ ncl + 1) :
    aggLoop clusterer n c (r + 1) ncl prevSize prevLabels log att =
      aggLoop clusterer n c r (ncl + 1)
        (some (largestClusterSize (clusterer ncl))) (some (clusterer ncl))
        (log ++ [ClusterLog.attempt ncl n,
          ClusterLog.exceedsMax (largestClusterSize (clusterer ncl))])
        (att ++ [ncl]) := by
  conv_lhs => rw [aggLoop.eq_def]
  dsimp only
  rw [if_neg h, if_neg (by simp [hcond]), if_neg hmax]
  simp [List.append_assoc]

/-- The shape of every run of the retry loop: with `r` retries left after
the current attempt, some `j ≤ r` further attempts happen, the attempted
cluster counts continue consecutively from `ncl`, all attempts after the
current one stay below `n_items`, and the returned labeling has length `n`
(given that the clusterer always returns `n` labels, as do any saved
previous labels). -/
theorem aggLoop_spec (clusterer : Nat → List Nat) (n c : Nat)
    (hlen : ∀ k, (clusterer k).length = n) :
    ∀ (r ncl : Nat) (prevSize : Option Nat) (prevLabels : Option (List Nat)),
      (∀ pl, prevLabels = some pl → pl.length = n) →
      ∀ (log : List ClusterLog) (att : List Nat),
      ∃ j ≤ r,
        (aggLoop clusterer n c r ncl prevSize prevLabels log att).2.2 =
          att ++ List.range' ncl (j + 1) ∧
        (∀ m ∈ List.range' (ncl + 1) j, m < n) ∧
        (aggLoop clusterer n c r ncl prevSize prevLabels log att).1.length
          = n := by
  intro r
  induction r with
  | zero =>
    intro ncl prevSize prevLabels hpl log att
    refine ⟨0, le_refl 0, ?_⟩
    by_cases hle : largestClusterSize (clusterer ncl) ≤ c
    · rw [aggLoop_success 0 ncl prevSize prevLabels log att hle]
      exact ⟨by simp [List.range'], by simp [List.range'], hlen ncl⟩
    · rcases prevSize with _ | p
      · by_cases hmax : n ≤ ncl + 1
        · rw [aggLoop_reachedMax 0 ncl Option.none prevLabels log att hle
            rfl hmax]
          exact ⟨by simp [List.range'], by simp [List.range'], hlen ncl⟩
        · rw [aggLoop_exhausted ncl Option.none prevLabels log att hle
            rfl hmax]
          exact ⟨by simp [List.range'], by simp [List.range'], hlen ncl⟩
      · by_cases hp : p ≤ largestClusterSize (clusterer ncl)
        · rw [aggLoop_noimprove 0 ncl (some p) prevLabels log att hle
            (by simp [hp])]
          refine ⟨by simp [List.range'], by simp [List.range'], ?_⟩
          cases prevLabels with
          | none => simp [hlen]
          | some pl => simpa using hpl pl rfl
        · by_cases hmax : n ≤ ncl + 1
          · rw [aggLoop_reachedMax 0 ncl (some p) prevLabels log att hle
              (by simp [hp]) hmax]
            exact ⟨by simp [List.range'], by simp [List.range'], hlen ncl⟩
          · rw [aggLoop_exhausted ncl (some p) prevLabels log att hle
              (by simp [hp]) hmax]
            exact ⟨by simp [List.range'], by simp [List.range'], hlen ncl⟩
  | succ r ih =>
    intro ncl prevSize prevLabels hpl log att
    by_cases hle : largestClusterSize (clusterer ncl) ≤ c
    · rw [aggLoop_success (r + 1) ncl prevSize prevLabels log att hle]
      exact ⟨0, Nat.zero_le _, by simp [List.range'],
        by simp [List.range'], hlen ncl⟩
    · have hcont : ∀ (hcond : (match prevSize with
          | some p => decide (p ≤ largestClusterSize (clusterer ncl))
          | Option.none => false) = false) (hmax : ¬ n ≤ ncl + 1),
          ∃ j ≤ r + 1,
            (aggLoop clusterer n c (r + 1) ncl prevSize prevLabels log
              att).2.2 = att ++ List.range' ncl (j + 1) ∧
            (∀ m ∈ List.range' (ncl + 1) j, m < n) ∧
            (aggLoop clusterer n c (r + 1) ncl prevSize prevLabels log
              att).1.length = n := by
        intro hcond hmax
        rw [aggLoop_continue r ncl prevSize prevLabels log att hle
          hcond hmax]
        obtain ⟨j, hj, hatt, hlt, hlab⟩ := ih (ncl + 1)
          (some (largestClusterSize (clusterer ncl)))
          (some (clusterer ncl))
          (fun pl hpl0 => by cases hpl0; exact hlen ncl)
          (log ++ [ClusterLog.attempt ncl n,
            ClusterLog.exceedsMax (largestClusterSize (clusterer ncl))])
          (att ++ [ncl])
        refine ⟨j + 1, Nat.succ_le_succ hj, ?_, ?_, hlab⟩
        · rw [hatt, List.append_assoc]
          simp [List.range'_succ]
        · intro m hm
          rw [List.range'_succ] at hm
          rcases List.mem_cons.mp hm with rfl | hm
          · omega
          · exact hlt m hm
      rcases prevSize with _ | p
      · by_cases hmax : n ≤ ncl + 1
        · rw [aggLoop_reachedMax (r + 1) ncl Option.none prevLabels log
            att hle rfl hmax]
          exact ⟨0, Nat.zero_le _, by simp [List.range'],
            by simp [List.range'], hlen ncl⟩
        · exact hcont rfl hmax
      · by_cases hp : p ≤ largestClusterSize (clusterer ncl)
        · rw [aggLoop_noimprove (r + 1) ncl (some p) prevLabels log att
            hle (by simp [hp])]
          refine ⟨0, Nat.zero_le _, by simp [List.range'],
            by simp [List.range'], ?_⟩
          cases prevLabels with
          | none => simp [hlen]
          | some pl => simpa using hpl pl rfl
        · by_cases hmax : n ≤ ncl + 1
          · rw [aggLoop_reachedMax (r + 1) ncl (some p) prevLabels log
              att hle (by simp [hp]) hmax]
            exact ⟨0, Nat.zero_le _, by simp [List.range'],
              by simp [List.range'], hlen ncl⟩
          · exact hcont (by simp [hp]) hmax

/-- Membership bound for a `foldr max`. -/
theorem le_foldr_max (l : List Nat) (a : Nat) (h : a ∈ l) :
    a ≤ l.foldr max 0 := by
  induction l with
  | nil => simp at h
  | cons b tl ih =>
    rcases List.mem_cons.mp h with rfl | h
    · exact le_max_left _ _
    · exact le_trans (ih h) (le_max_right _ _)

/-- Every label's cluster size is bounded by the largest cluster size. -/
theorem count_le_largest (labels : List Nat) (x : Nat) (h : x ∈ labels) :
    labels.count x ≤ largestClusterSize labels :=
  le_foldr_max _ _ (List.mem_map_of_mem _ h)

/-- Pigeonhole: with every cluster of size at most `c`, the items fit in
`card * c` slots. -/
theorem length_le_card_mul (labels : List Nat) (c : Nat)
    (hbound : ∀ x ∈ labels, labels.count x ≤ c) :
    labels.length ≤ labels.toFinset.card * c := by
  calc labels.length = ∑ x ∈ labels.toFinset, labels.count x :=
        (List.sum_toFinset_count_eq_length labels).symm
    _ ≤ ∑ _x ∈ labels.toFinset, c :=
        Finset.sum_le_sum (fun x hx => hbound x (List.mem_toFinset.mp hx))
    _ = labels.toFinset.card * c := by
        rw [Finset.sum_const, smul_eq_mul]

/-- Whenever the loop returns an oversized labeling, a warning was logged
(`noImprovement`, `reachedMax`, or at least one `exceedsMax`). -/
theorem aggLoop_oversized_logged (clusterer : Nat → List Nat) (n c : Nat) :
    ∀ (r ncl : Nat) (prevSize : Option Nat) (prevLabels : Option (List Nat))
      (log : List ClusterLog) (att : List Nat),
      c < largestClusterSize
        (aggLoop clusterer n c r ncl prevSize prevLabels log att).1 →
      ClusterLog.noImprovement ∈
          (aggLoop clusterer n c r ncl prevSize prevLabels log att).2.1 ∨
        ClusterLog.reachedMax ∈
          (aggLoop clusterer n c r ncl prevSize prevLabels log att).2.1 ∨
        ∃ s, ClusterLog.exceedsMax s ∈
          (aggLoop clusterer n c r ncl prevSize prevLabels log att).2.1 := by
  intro r
  induction r with
  | zero =>
    intro ncl prevSize prevLabels log att hbig
    by_cases hle : largestClusterSize (clusterer ncl) ≤ c
    · rw [aggLoop_success 0 ncl prevSize prevLabels log att hle] at hbig
      exact absurd hbig (by simpa using hle)
    · rcases prevSize with _ | p
      · by_cases hmax : n ≤ ncl + 1
        · rw [aggLoop_reachedMax 0 ncl Option.none prevLabels log att hle
            rfl hmax]
          simp
        · rw [aggLoop_exhausted ncl Option.none prevLabels log att hle
            rfl hmax]
          exact Or.inr (Or.inr ⟨largestClusterSize (clusterer ncl), by simp⟩)
      · by_cases hp : p ≤ largestClusterSize (clusterer ncl)
        · rw [aggLoop_noimprove 0 ncl (some p) prevLabels log att hle
            (by simp [hp])]
          simp
        · by_cases hmax : n ≤ ncl + 1
          · rw [aggLoop_reachedMax 0 ncl (some p) prevLabels log att hle
              (by simp [hp]) hmax]
            simp
          · rw [aggLoop_exhausted ncl (some p) prevLabels log att hle
              (by simp [hp]) hmax]
            exact Or.inr (Or.inr ⟨largestClusterSize (clusterer ncl), by simp⟩)
  | succ r ih =>
    intro ncl prevSize prevLabels log att hbig
    by_cases hle : largestClusterSize (clusterer ncl) ≤ c
    · rw [aggLoop_success (r + 1) ncl prevSize prevLabels log att hle]
        at hbig
      exact absurd hbig (by simpa using hle)
    · rcases prevSize with _ | p
      · by_cases hmax : n ≤ ncl + 1
        · rw [aggLoop_reachedMax (r + 1) ncl Option.none prevLabels log
            att hle rfl hmax]
          simp
        · rw [aggLoop_continue r ncl Option.none prevLabels log att hle
            rfl hmax] at hbig ⊢
          exact ih _ _ _ _ _ hbig
      · by_cases hp : p ≤ largestClusterSize (clusterer ncl)
        · rw [aggLoop_noimprove (r + 1) ncl (some p) prevLabels log att
            hle (by simp [hp])]
          simp
        · by_cases hmax : n ≤ ncl + 1
          · rw [aggLoop_reachedMax (r + 1) ncl (some p) prevLabels log
              att hle (by simp [hp]) hmax]
            simp
          · rw [aggLoop_continue r ncl (some p) prevLabels log att hle
              (by simp [hp]) hmax] at hbig ⊢
            exact ih _ _ _ _ _ hbig

/-- **C5**: over a size-constrained clustering run (with the clusterer
returning one label per item), the loop starts at `max(1, ceil(n / c))`
clusters, attempts consecutive cluster counts (incrementing by exactly one
per retry), performs at most `max_cluster_iterations` attempts, never
retries a cluster count that has reached the item count, and returns a
label array of length `n`; moreover whenever the largest cluster size did
not improve on the previous attempt, the loop stops and falls back to the
previous iteration's labels. -/
theorem c5_retry_loop_shape (clusterer : Nat → List Nat) (n c it : Nat)
    (hn : 1 ≤ n) (hc : 1 ≤ c) (hit : 1 ≤ it)
    (hlen : ∀ k, (clusterer k).length = n) :
    (∃ labels log att,
      agglomerative_clustering clusterer n c it = some (labels, log, att) ∧
      att.head? = some (max 1 (ceilDiv n c)) ∧
      att = List.range' (max 1 (ceilDiv n c)) att.length ∧
      1 ≤ att.length ∧ att.length ≤ it ∧
      (∀ m ∈ att.tail, m < n) ∧
      labels.length = n) ∧
    (∀ (r ncl p : Nat) (pl : List Nat) (log : List ClusterLog)
        (att : List Nat),
      p ≤ largestClusterSize (clusterer ncl) →
      ¬ largestClusterSize (clusterer ncl) ≤ c →
      aggLoop clusterer n c r ncl (some p) (some pl) log att =
        (pl, log ++ [ClusterLog.attempt ncl n, ClusterLog.noImprovement],
          att ++ [ncl])) := by
  constructor
  · obtain ⟨it0, rfl⟩ : ∃ it0, it = it0 + 1 := ⟨it - 1, by omega⟩
    obtain ⟨j, hj, hatt, hlt, hlab⟩ :=
      aggLoop_spec clusterer n c hlen it0 (max 1 (ceilDiv n c))
        Option.none Option.none (fun pl h => Option.noConfusion h) [] []
    rw [List.nil_append] at hatt
    refine ⟨(aggLoop clusterer n c it0 (max 1 (ceilDiv n c))
        Option.none Option.none [] []).1,
      (aggLoop clusterer n c it0 (max 1 (ceilDiv n c))
        Option.none Option.none [] []).2.1,
      (aggLoop clusterer n c it0 (max 1 (ceilDiv n c))
        Option.none Option.none [] []).2.2,
      rfl, ?_, ?_, ?_, ?_, ?_, hlab⟩
    · rw [hatt, List.range'_succ]
      rfl
    · rw [hatt, List.length_range']
    · rw [hatt, List.length_range']
      omega
    · rw [hatt, List.length_range']
      omega
    · rw [hatt, List.range'_succ]
      simpa only [List.tail_cons] using hlt
  · intro r ncl p pl log att hp hle
    rw [aggLoop_noimprove r ncl (some p) (some pl) log att hle
      (by simp [hp])]
    rfl

/-- Closed-form instance of the C5 theorem on the modular example
clusterer with 10 items, ceiling 4 and 5 iterations. -/
theorem c5_retry_loop_shape_witness :
    (∃ labels log att,
      agglomerative_clustering exModClusterer 10 4 5 =
        some (labels, log, att) ∧
      att.head? = some (max 1 (ceilDiv 10 4)) ∧
      att = List.range' (max 1 (ceilDiv 10 4)) att.length ∧
      1 ≤ att.length ∧ att.length ≤ 5 ∧
      (∀ m ∈ att.tail, m < 10) ∧
      labels.length = 10) ∧
    (∀ (r ncl p : Nat) (pl : List Nat) (log : List ClusterLog)
        (att : List Nat),
      p ≤ largestClusterSize (exModClusterer ncl) →
      ¬ largestClusterSize (exModClusterer ncl) ≤ 4 →
      aggLoop exModClusterer 10 4 r ncl (some p) (some pl) log att =
        (pl, log ++ [ClusterLog.attempt ncl 10, ClusterLog.noImprovement],
          att ++ [ncl])) :=
  c5_retry_loop_shape exModClusterer 10 4 5 (by decide) (by decide)
    (by decide) (fun k => by simp [exModClusterer])

/-- **C6**: whenever a size-constrained clustering run returns a labeling
with some cluster larger than the ceiling, an explicit fallback message
(`noImprovement`, `reachedMax`, or an `exceedsMax` warning) was logged; and
on the 10-item example with ceiling 4 the builder produces at least
`ceil(10/4) = 3` clusters, each of size at most 4, within at most 5
attempts. -/
theorem c6_ceiling_or_logged (clusterer : Nat → List Nat)
    (n c it : Nat) (labels : List Nat) (log : List ClusterLog)
    (att : List Nat)
    (h : agglomerative_clustering clusterer n c it = some (labels, log, att))
    (hbig : c < largestClusterSize labels) :
    (ClusterLog.noImprovement ∈ log ∨ ClusterLog.reachedMax ∈ log ∨
      ∃ s, ClusterLog.exceedsMax s ∈ log) ∧
    (∃ labels0 log0 att0,
      agglomerative_clustering exModClusterer 10 4 5 =
        some (labels0, log0, att0) ∧
      largestClusterSize labels0 ≤ 4 ∧ 3 ≤ labels0.toFinset.card ∧
      att0.length ≤ 5) := by
  constructor
  · cases it with
    | zero => exact absurd h (by simp [agglomerative_clustering])
    | succ r =>
      simp only [agglomerative_clustering, Option.some.injEq] at h
      have hmain := aggLoop_oversized_logged clusterer n c r
        (max 1 (ceilDiv n c)) Option.none Option.none [] []
        (by rw [h]; exact hbig)
      rw [h] at hmain
      exact hmain
  · exact ⟨[0, 1, 2, 0, 1, 2, 0, 1, 2, 0],
      [ClusterLog.attempt 3 10, ClusterLog.success 4], [3],
      by decide, by decide, by decide, by decide⟩

/-- Closed-form instance of the C6 theorem: the constant example clusterer
never meets the ceiling, so the run returns an oversized labeling after
logging the `noImprovement` fallback. -/
theorem c6_ceiling_or_logged_witness :
    (ClusterLog.noImprovement ∈
        [ClusterLog.attempt 3 10, ClusterLog.exceedsMax 10,
          ClusterLog.attempt 4 10, ClusterLog.noImprovement] ∨
      ClusterLog.reachedMax ∈
        [ClusterLog.attempt 3 10, ClusterLog.exceedsMax 10,
          ClusterLog.attempt 4 10, ClusterLog.noImprovement] ∨
      ∃ s, ClusterLog.exceedsMax s ∈
        [ClusterLog.attempt 3 10, ClusterLog.exceedsMax 10,
          ClusterLog.attempt 4 10, ClusterLog.noImprovement]) ∧
    (∃ labels0 log0 att0,
      agglomerative_clustering exModClusterer 10 4 5 =
        some (labels0, log0, att0) ∧
      largestClusterSize labels0 ≤ 4 ∧ 3 ≤ labels0.toFinset.card ∧
      att0.length ≤ 5) :=
  c6_ceiling_or_logged exOneClusterer 10 4 5 (List.replicate 10 0)
    [ClusterLog.attempt 3 10, ClusterLog.exceedsMax 10,
      ClusterLog.attempt 4 10, ClusterLog.noImprovement] [3, 4]
    (by decide) (by decide)

/-!
### Helper lemmas for the account-matcher heap
-/

/-- `_siftdown`'s loop only ever `set`s entries, so it preserves length. -/
theorem siftdownAux_length (ni : HeapItem) (sp : Nat) :
    ∀ (fuel : Nat) (heap : List HeapItem) (pos : Nat),
      (siftdownAux ni sp fuel heap pos).length = heap.length := by
  intro fuel
  induction fuel with
  | zero =>
    intro heap pos
    simp [siftdownAux]
  | succ f ih =>
    intro heap pos
    unfold siftdownAux
    by_cases h1 : sp < pos
    · rw [if_pos h1]
      by_cases h2 : itemLtb ni (heap.getD ((pos - 1) / 2) dummyItem) = true
      · rw [if_pos h2, ih]
        simp
      · rw [if_neg h2]
        simp
    · rw [if_neg h1]
      simp

/-- `_siftdown` preserves the heap length. -/
theorem siftdown_length (heap : List HeapItem) (sp pos : Nat) :
    (siftdown heap sp pos).length = heap.length :=
  siftdownAux_length _ _ _ _ _

/-- `heappush` grows the heap by exactly one entry. -/
theorem heappush_length (heap : List HeapItem) (item : HeapItem) :
    (heappush heap item).length = heap.length + 1 := by
  unfold heappush
  rw [siftdown_length]
  simp

/-- `_siftup`'s bubble-down loop preserves the heap length. -/
theorem siftupAux_length (ep : Nat) :
    ∀ (fuel : Nat) (heap : List HeapItem) (pos : Nat),
      (siftupAux ep fuel heap pos).1.length = heap.length := by
  intro fuel
  induction fuel with
  | zero =>
    intro heap pos
    rfl
  | succ f ih =>
    intro heap pos
    unfold siftupAux
    by_cases h1 : 2 * pos + 1 < ep
    · rw [if_pos h1, ih]
      simp
    · rw [if_neg h1]

/-- `_siftup` preserves the heap length. -/
theorem siftup_length (heap : List HeapItem) (pos : Nat) :
    (siftup heap pos).length = heap.length := by
  unfold siftup
  rw [siftdown_length]
  rw [List.length_set, siftupAux_length]

/-- `heappushpop` preserves the heap length. -/
theorem heappushpop_length (heap : List HeapItem) (item : HeapItem) :
    (heappushpop heap item).length = heap.length := by
  match heap with
  | [] => rfl
  | h0 :: t =>
    unfold heappushpop
    dsimp only
    by_cases h : itemLtb h0 item = true
    · rw [if_pos h, siftup_length, List.length_set]
    · rw [if_neg h]

/-- One loop pass of `find_top_k_users` never grows the heap past `top_k`. -/
theorem topStep_length (loadSim : String → Option ℚ) (top_k : Nat)
    (heap h2 : List HeapItem) (uid : String)
    (h : topStep loadSim top_k heap uid = Except.ok h2)
    (hle : heap.length ≤ top_k) : h2.length ≤ top_k := by
  unfold topStep at h
  rcases hload : loadSim uid with _ | sim
  · rw [hload] at h
    dsimp only at h
    cases h
    exact hle
  · rw [hload] at h
    dsimp only at h
    by_cases hlt : heap.length < top_k
    · rw [if_pos hlt] at h
      cases h
      rw [heappush_length]
      omega
    · rw [if_neg hlt] at h
      rcases heap with _ | ⟨h0, t⟩
      · exact Except.noConfusion h
      · dsimp only at h
        by_cases hcmp : h0.1 < sim
        · rw [if_pos hcmp] at h
          cases h
          rw [heappushpop_length]
          exact hle
        · rw [if_neg hcmp] at h
          cases h
          exact hle

/-- The whole fold over `other_user_ids` keeps the heap at `top_k` entries
or fewer. -/
theorem fold_heap_length (loadSim : String → Option ℚ) (top_k : Nat) :
    ∀ (ids : List String) (heap0 : List HeapItem),
      heap0.length ≤ top_k →
      ∀ h, List.foldlM (topStep loadSim top_k) heap0 ids = Except.ok h →
        h.length ≤ top_k := by
  intro ids
  induction ids with
  | nil =>
    intro heap0 hle h hfold
    cases hfold
    exact hle
  | cons uid ids ih =>
    intro heap0 hle h hfold
    rw [List.foldlM_cons] at hfold
    match hstep : topStep loadSim top_k heap0 uid with
    | Except.error e =>
      rw [hstep] at hfold
      exact Except.noConfusion hfold
    | Except.ok h1 =>
      rw [hstep] at hfold
      exact ih h1 (topStep_length loadSim top_k heap0 h1 uid hstep hle) h hfold

/-- **C7** (counterexample): with three peers `"c"`, `"b"`, `"a"` all
scoring exactly 1/2 and `top_k = 3`, `find_top_k_users` returns the pairs
in heap order `a, c, b`, which is not sorted by peer id on the tie: the
`sorted(..., key=lambda x: x[0], reverse=True)` call keys on the score
only, so equal-score peers keep the heap's internal order and are not
ordered by peer id. -/
theorem c7_tie_break_counterexample :
    find_top_k_users exLoadSimTie ["c", "b", "a"] 3 =
      Except.ok [("a", mkRat 1 2), ("c", mkRat 1 2), ("b", mkRat 1 2)] ∧
    ¬ List.Pairwise (fun x y : String × ℚ =>
        y.2 < x.2 ∨ (x.2 = y.2 ∧ strLtb x.1.data y.1.data = true))
      [("a", mkRat 1 2), ("c", mkRat 1 2), ("b", mkRat 1 2)] :=
  ⟨by decide, by decide⟩

/-- **C7** (amended): `find_top_k_users` returns at most `top_k`
`(peer id, similarity)` pairs sorted by similarity descending — ties keep
the heap's internal order and are not broken by peer id — and on the
spec's example of three peers scoring 0.9 / 0.4 / 0.7 with `top_k = 2` it
returns the peers scoring 0.9 then 0.7. -/
theorem c7_top_k_sorted_desc (loadSim : String → Option ℚ)
    (ids : List String) (top_k : Nat) (res : List (String × ℚ))
    (h : find_top_k_users loadSim ids top_k = Except.ok res) :
    res.length ≤ top_k ∧
    List.Pairwise (fun x y : String × ℚ => y.2 ≤ x.2) res ∧
    find_top_k_users exLoadSim097 ["p1", "p2", "p3"] 2 =
      Except.ok [("p1", mkRat 9 10), ("p3", mkRat 7 10)] := by
  refine ⟨?_, ?_, by decide⟩ <;>
  · unfold find_top_k_users at h
    by_cases hemp : ids.isEmpty = true
    · rw [if_pos hemp] at h
      cases h
      simp
    · rw [if_neg hemp] at h
      simp only [bind, Except.bind] at h
      match hfold : List.foldlM (topStep loadSim top_k) [] ids with
      | Except.error e =>
        rw [hfold] at h
        exact Except.noConfusion h
      | Except.ok heap =>
        rw [hfold] at h
        cases h
        first
        | · rw [List.length_map, List.length_insertionSort]
            exact fold_heap_length loadSim top_k ids [] (Nat.zero_le _)
              heap hfold
        | · rw [List.pairwise_map]
            exact List.sorted_insertionSort descByScore heap

/-- Closed-form instance of the C7 theorem on the 0.9 / 0.4 / 0.7
example. -/
theorem c7_top_k_sorted_desc_witness :
    [("p1", mkRat 9 10), ("p3", mkRat 7 10)].length ≤ 2 ∧
    List.Pairwise (fun x y : String × ℚ => y.2 ≤ x.2)
      [("p1", mkRat 9 10), ("p3", mkRat 7 10)] ∧
    find_top_k_users exLoadSim097 ["p1", "p2", "p3"] 2 =
      Except.ok [("p1", mkRat 9 10), ("p3", mkRat 7 10)] :=
  c7_top_k_sorted_desc exLoadSim097 ["p1", "p2", "p3"] 2
    [("p1", mkRat 9 10), ("p3", mkRat 7 10)] (by decide)

end Serengpty
